import Mathlib

set_option maxHeartbeats 1000000

/- Shallow embedding of the martin-config repository (UNDP-Data/martin-config).

   Python strings are modelled as `String` (or `List Char` for the
   URL-encoding layer), Python dicts as insertion-ordered association
   lists, Python exceptions as `Except PyErr`, and the asyncpg-backed
   database as an explicit environment record `DBEnv` supplying the
   result of each SQL query. -/

/-- Python exceptions that the modelled code can raise. `dbError` stands for
an asyncpg/database error surfacing from a query; `nameError` models the
`NameError` raised by `eval` on an unresolved identifier, `synError` the
`SyntaxError` raised by `eval` on an illegal literal, and `valueError` the
`ValueError` raised by urllib's `port` property. -/
inductive PyErr where
  | dbError (msg : String)
  | nameError (msg : String)
  | synError (msg : String)
  | valueError (msg : String)
  deriving DecidableEq, Repr

section AssocList

variable {α β : Type} [DecidableEq α]

/-- Lookup in an insertion-ordered association list (Python `d[k]` / `k in d`). -/
def lookupA : List (α × β) → α → Option β
  | [], _ => none
  | (k, v) :: rest, a => if k = a then some v else lookupA rest a

/-- Python `k in d`. -/
def hasKeyA (m : List (α × β)) (a : α) : Bool :=
  (lookupA m a).isSome

/-- Python `d[k] = v`: overwrite in place if the key exists (keeping its
position), otherwise append at the end. -/
def updateA (m : List (α × β)) (kv : α × β) : List (α × β) :=
  if hasKeyA m kv.1 then m.map (fun p => if p.1 = kv.1 then kv else p) else m ++ [kv]

/-- Python `del d[k]`. -/
def removeKeyA (m : List (α × β)) (a : α) : List (α × β) :=
  m.filter (fun p => p.1 ≠ a)

/-- Python `dict(pairs)`: insert the pairs left to right (later duplicates
overwrite earlier values in place). -/
def pyDictOf (l : List (α × β)) : List (α × β) :=
  l.foldl updateA []

end AssocList

/- ===============================================================
   Geometry descriptor resolution (db.py, get_table_cfg, lines 681-688)

   ```
   for r in columns:  # prefer/pick the 3857 geom or the last ...
       srid = r['srid']; geom_column = r['geom_column']; ...
       if srid == 3857:
           break
   ```
   =============================================================== -/

/-- One row of the `get_table_columns` query result: the geometry column
name, its SRID, the geometry type, and (the `json.loads` of) the mapping
from non-geometry column names to their Postgres types. -/
structure GeomRow where
  geom_column : String
  srid : Int
  type : String
  properties : List (String × String)
  deriving DecidableEq, Repr

/-- The row-selection loop of `get_table_cfg`: walk the rows in order,
remembering the current row, and stop at the first row whose SRID is 3857;
if no row has SRID 3857 the last row examined is retained. -/
def pickGeom (r : GeomRow) : List GeomRow → GeomRow
  | [] => r
  | r2 :: rest => if r.srid = 3857 then r else pickGeom r2 rest

/- ===============================================================
   The YAML-like serializer (utils.py, dump, lines 106-123)
   =============================================================== -/

/-- A value in the aggregate configuration mapping: a bool, an int, a
string, or a nested mapping. -/
inductive YVal where
  | b : Bool → YVal
  | i : Int → YVal
  | s : String → YVal
  | m : List (String × YVal) → YVal

/-- Python `str(v).lower() if type(v) is bool else v` interpolated into the
f-string of `dump` (scalar case only). -/
def scalarOf : YVal → String
  | .b bv => if bv then "true" else "false"
  | .i n => toString n
  | .s sv => sv
  | .m _ => ""

/-- The `spacer` of `dump`: `''.join(depth * [' '])`. -/
def spacer (depth : Nat) : String :=
  String.mk (List.replicate depth ' ')

/-- The lines appended to `content` by one call of `utils.dump` on
`input_dict` with the given `depth`: one line per key, dict values recurse
with `depth + 2`. -/
def dumpLines : List (String × YVal) → Nat → List String
  | [], _ => []
  | (k, v) :: rest, depth =>
    match v with
    | .m sub => (spacer depth ++ k) :: (dumpLines sub (depth + 2) ++ dumpLines rest depth)
    | _ => (spacer depth ++ k ++ ": " ++ scalarOf v) :: dumpLines rest depth

/-- Python `'\n'.join(lines)`. -/
def joinNL (lines : List String) : String :=
  String.intercalate "\n" lines

/-- One top-level call of `utils.dump(d)` with the default `depth=0` and the
default `content=[]` argument. In Python the default list is allocated once
at function definition time and mutated in place by `content.append`, so it
persists between calls: `st` is the contents of that shared default list
before the call, and the second component is its contents afterwards. An
empty (falsy) `input_dict` skips the loop and falls through, returning
Python `None` (modelled as `none`). -/
def dump (d : List (String × YVal)) (st : List String) : Option String × List String :=
  let st' := st ++ dumpLines d 0
  (if d.isEmpty then none else some (joinNL st'), st')

/-- Modelled from the spec: the Serializer "must render nested maps with
two-space indent per depth level, booleans lower-cased, scalars as-is" --
each key at nesting depth `lvl` is indented by exactly `2 * lvl` spaces,
one key per line. -/
def specLines : List (String × YVal) → Nat → List String
  | [], _ => []
  | (k, v) :: rest, lvl =>
    match v with
    | .m sub =>
      (String.mk (List.replicate (2 * lvl) ' ') ++ k) ::
        (specLines sub (lvl + 1) ++ specLines rest lvl)
    | _ =>
      (String.mk (List.replicate (2 * lvl) ' ') ++ k ++ ": " ++ scalarOf v) ::
        specLines rest lvl

/- ===============================================================
   Character and small string helpers (Python str methods)
   =============================================================== -/

/-- Python `str.lower` on one ASCII character (`A`-`Z` is code points 65
to 90). -/
def lowerChar (c : Char) : Char :=
  if 65 ≤ c.toNat ∧ c.toNat ≤ 90 then Char.ofNat (c.toNat + 32) else c

/-- Python `str.upper` on one ASCII character (`a`-`z` is code points 97
to 122). -/
def upperChar (c : Char) : Char :=
  if 97 ≤ c.toNat ∧ c.toNat ≤ 122 then Char.ofNat (c.toNat - 32) else c

/-- Python `s.lower()`. -/
def pyLower (s : String) : String :=
  String.mk (s.data.map lowerChar)

/-- Python `s.capitalize()`: upper-case the first character, lower-case the
rest. -/
def pyCapitalize (s : String) : String :=
  match s.data with
  | [] => ""
  | c :: rest => String.mk (upperChar c :: rest.map lowerChar)

/-- The `value.lower().capitalize()` applied to an annotation value before
it is fed to `eval` in `column_is_publishable` / `table_is_publishable`. -/
def lowerCap (s : String) : String :=
  pyCapitalize (pyLower s)

/-- Python `int(s)` for a string of decimal digits. -/
def chars2nat (l : List Char) : Nat :=
  l.foldl (fun a c => 10 * a + (c.toNat - 48)) 0

/- ===============================================================
   Publish resolution (db.py: column_is_publishable lines 289-311,
   table_is_publishable lines 422-443)
   =============================================================== -/

/-- A Python value produced by `eval` on an annotation value, or by a
privilege-check query. -/
inductive PyLit where
  | pBool : Bool → PyLit
  | pNone : PyLit
  | pInt : Int → PyLit
  | pObj : String → PyLit
  deriving DecidableEq, Repr

/-- A Python decimal digit `0`-`9` (code points 48 to 57). -/
def decDigit (c : Char) : Bool :=
  48 ≤ c.toNat && c.toNat ≤ 57

/-- A capitalized bare identifier: one upper-case ASCII letter followed by
lower-case ASCII letters. This is the only identifier shape that
`.lower().capitalize()` can produce, and `eval` on such a name raises
`NameError` unless the name resolves in the enclosing namespace. -/
def capIdentName (s : String) : Bool :=
  match s.data with
  | c :: rest =>
    (65 ≤ c.toNat && c.toNat ≤ 90) && rest.all (fun d => 97 ≤ d.toNat && d.toNat ≤ 122)
  | [] => false

/-- Models Python `eval` applied to the `.lower().capitalize()` form of an
annotation value, in the globals of `db.py`. The model commits only to the
fragment of `eval` it can settle exactly: the capitalized-shape names that
resolve are precisely the builtins `True`, `False`, `None`, `Ellipsis`,
`Exception` and `Warning` (no module-level global of `db.py` is
capitalized), every other capitalized bare identifier raises `NameError`,
and a digit string is a decimal integer literal — legal unless it has a
leading zero (`eval("007")` is a `SyntaxError` in Python 3, while a string
of only zeros is legal). Inputs outside this fragment (float, hex,
scientific, complex, string or container literals, operator expressions,
the empty string, ...) are delegated to `other`, the uninterpreted
remainder of `eval` carried by the environment. -/
def pyEval (other : String → Except PyErr PyLit) (s : String) : Except PyErr PyLit :=
  if s = "True" then .ok (.pBool true)
  else if s = "False" then .ok (.pBool false)
  else if s = "None" then .ok .pNone
  else if s = "Ellipsis" ∨ s = "Exception" ∨ s = "Warning" then .ok (.pObj s)
  else if s ≠ "" ∧ s.data.all decDigit then
    if s.data.head? ≠ some '0' ∨ s.data.all (· == '0') = true then
      .ok (.pInt (Int.ofNat (chars2nat s.data)))
    else .error (.synError s)
  else if capIdentName s then .error (.nameError s)
  else other s

/-- Python `x == False`: true for `False` itself and for the number zero;
`None`, nonzero numbers and other objects compare unequal. -/
def pyEqFalse : PyLit → Bool
  | .pBool b => !b
  | .pInt n => n == 0
  | _ => false

/-- Python `x is False`: identity with the `False` singleton only. -/
def pyIsFalse : PyLit → Bool
  | .pBool false => true
  | _ => false

/-- One row of the `get_table_primary_key` query. -/
structure PKRec where
  column_name : String
  data_type : String
  deriving DecidableEq, Repr

/-- One row of the `func_sources.sql` query (`list_function_sources`). -/
structure FuncRec where
  function_schema : String
  function_name : String
  deriving DecidableEq, Repr

/-- The backing Postgres database, modelled as the results each SQL query
of `db.py` would return. Fallible queries return `Except PyErr`; an
`.error` value models the corresponding asyncpg call raising.
Comment dicts are the `dict(parse_qsl(...))` results of
`get_table_comment` / `get_column_comment`. `evalOther` is the
uninterpreted remainder of Python `eval` on annotation values outside the
literal fragment `pyEval` commits to (see `pyEval`). -/
structure DBEnv where
  availableSchemas : List String
  tablesOf : String → List String
  tableComment : String → Except PyErr (List (String × String))
  columnComment : String → String → Except PyErr (List (String × String))
  tableColumns : String → Except PyErr (List GeomRow)
  bboxOf : String → String → Int → Except PyErr (List Int)
  primaryKey : String → Except PyErr (List PKRec)
  functionsOf : String → List FuncRec
  schemaAccessible : String → String → Bool
  tableAccessible : String → String → Except PyErr Bool
  columnAccessible : String → String → String → Except PyErr Bool
  funcAccessible : String → String → String → Bool
  evalOther : String → Except PyErr PyLit

/-- `db.table_is_publishable`: fetch the table comment dict; if the
`publish` key is absent return `False`, otherwise
`eval(value.lower().capitalize())`. -/
def table_is_publishable (env : DBEnv) (table : String) : Except PyErr PyLit :=
  match env.tableComment table with
  | .error e => .error e
  | .ok cd =>
    match lookupA cd "publish" with
    | none => .ok (.pBool false)
    | some v => pyEval env.evalOther (lowerCap v)

/-- `db.column_is_publishable`: fetch the column comment dict; if the
`publish` key is absent return Python `None`, otherwise
`eval(value.lower().capitalize())`. -/
def column_is_publishable (env : DBEnv) (table column : String) : Except PyErr PyLit :=
  match env.columnComment table column with
  | .error e => .error e
  | .ok cd =>
    match lookupA cd "publish" with
    | none => .ok .pNone
    | some v => pyEval env.evalOther (lowerCap v)

/- ===============================================================
   get_table_cfg (db.py lines 660-745)
   =============================================================== -/

/-- The per-table configuration record built by `get_table_cfg`. -/
structure TblDict where
  id : String
  schema : String
  table : String
  bounds : List Int
  srid : Int
  geometry_column : String
  id_column : String
  extent : Nat
  buffer : Nat
  geometry_type : String
  clip_geometry : Bool
  properties : List (String × String)
  deriving DecidableEq, Repr

/-- First component of `table.split('.')` for a fully qualified
`schema.table_name` string. -/
def schemaOf (t : String) : String :=
  String.mk (t.data.takeWhile (· ≠ '.'))

/-- Second component of `table.split('.')` for a fully qualified
`schema.table_name` string. -/
def tableNameOf (t : String) : String :=
  String.mk ((t.data.dropWhile (· ≠ '.')).drop 1)

/-- The properties loop of `get_table_cfg` (lines 729-741): for each
column, in annotation mode ask `column_is_publishable`, in grant mode ask
`column_is_accessible`; drop the column only when the answer `is False`.
A raise inside the loop propagates (there is no handler around it). -/
def filterProps (env : DBEnv) (user : Option String) (table : String) :
    List (String × String) → Except PyErr (List (String × String))
  | [] => .ok []
  | (k, v) :: rest =>
    let colPubE : Except PyErr PyLit :=
      match user with
      | none => column_is_publishable env table k
      | some u =>
        match env.columnAccessible u table k with
        | .error e => .error e
        | .ok b => .ok (.pBool b)
    match colPubE with
    | .error e => .error e
    | .ok colPub =>
      match filterProps env user table rest with
      | .error e => .error e
      | .ok out => if pyIsFalse colPub then .ok out else .ok ((k, v) :: out)

/-- `db.get_table_cfg`: fetch the geometry rows (a raise here propagates),
return `None` when there are none, pick the geometry row with `pickGeom`,
compute the bounding box (a raise here is caught: log and skip the table),
fetch the primary key (a raise here is caught: no feature id), filter the
properties, and return the single-entry dict keyed `f'{table}:'`. -/
def get_table_cfg (env : DBEnv) (user : Option String) (table : String) :
    Except PyErr (Option (String × TblDict)) :=
  match env.tableColumns table with
  | .error e => .error e
  | .ok [] => .ok none
  | .ok (r :: rs) =>
    let sel := pickGeom r rs
    match env.bboxOf table sel.geom_column sel.srid with
    | .error _ => .ok none
    | .ok bb =>
      let pk := match env.primaryKey table with
        | .error _ => []
        | .ok l => l
      let idCol := match pk with
        | [] => "~"
        | prec :: _ => prec.column_name
      match filterProps env user table sel.properties with
      | .error e => .error e
      | .ok props =>
        .ok (some (table ++ ":",
          { id := table, schema := schemaOf table, table := tableNameOf table,
            bounds := bb, srid := sel.srid, geometry_column := sel.geom_column,
            id_column := idCol, extent := 4096, buffer := 64,
            geometry_type := sel.type, clip_geometry := true,
            properties := props }))

/- ===============================================================
   create_config_dict (config.py lines 5-95)
   =============================================================== -/

/-- The per-function configuration record built by `create_config_dict`. -/
structure FuncDict where
  id : String
  schema : String
  function : String
  minzoom : Nat
  maxzoom : Nat
  bounds : List Int
  deriving DecidableEq, Repr

/-- The publish decision of the per-table loop of `create_config_dict`
(config.py lines 50-53): grant mode (`table_is_accessible`) when a
principal is given, annotation mode (`table_is_publishable`) otherwise. -/
def resolveWillPublish (env : DBEnv) (user : Option String) (t : String) :
    Except PyErr PyLit :=
  match user with
  | some u =>
    match env.tableAccessible u t with
    | .error e => .error e
    | .ok b => .ok (.pBool b)
  | none => table_is_publishable env t

/-- One iteration of the per-table loop of `create_config_dict` (config.py
lines 48-64): resolve the publish decision; a raise there is caught
(`except Exception`), logged and the table skipped; a decision `== False`
skips the table; otherwise build its record with `get_table_cfg`. -/
def processTable (env : DBEnv) (user : Option String) (t : String) :
    Except PyErr (Option (String × TblDict)) :=
  match resolveWillPublish env user t with
  | .error _ => .ok none
  | .ok wp =>
    if pyEqFalse wp then .ok none
    else get_table_cfg env user t

/-- The per-schema table loop: fold `processTable` over the listed tables,
merging each returned single-entry dict into the accumulator with
`dict.update`. -/
def processTables (env : DBEnv) (user : Option String) :
    List String → List (String × TblDict) → Except PyErr (List (String × TblDict))
  | [], acc => .ok acc
  | t :: rest, acc =>
    match processTable env user t with
    | .error e => .error e
    | .ok none => processTables env user rest acc
    | .ok (some kv) => processTables env user rest (updateA acc kv)

/-- The function-sources loop of `create_config_dict` (lines 66-87). -/
def processFuncs (env : DBEnv) (user : Option String) :
    List FuncRec → List (String × FuncDict) → List (String × FuncDict)
  | [], acc => acc
  | fr :: rest, acc =>
    let fname := fr.function_schema ++ "." ++ fr.function_name
    let keep := match user with
      | none => true
      | some u => env.funcAccessible u fr.function_schema fr.function_name
    if keep then
      processFuncs env user rest (updateA acc (fname ++ ":",
        { id := fname, schema := fr.function_schema, function := fr.function_name,
          minzoom := 0, maxzoom := 22, bounds := [-180, -90, 180, 90] }))
    else processFuncs env user rest acc

/-- One iteration of the schema loop of `create_config_dict` (lines 36-87):
skip the schema when the principal lacks USAGE, skip it when it is not
among the discovered schemas, otherwise process its tables and (unless
skipped) its function sources. -/
def processSchema (env : DBEnv) (user : Option String) (skipFn : Bool)
    (acc : List (String × TblDict) × List (String × FuncDict)) (schema : String) :
    Except PyErr (List (String × TblDict) × List (String × FuncDict)) :=
  let userDenied := match user with
    | some u => !(env.schemaAccessible u schema)
    | none => false
  if userDenied then .ok acc
  else if !(env.availableSchemas.contains schema) then .ok acc
  else
    match processTables env user (env.tablesOf schema) acc.1 with
    | .error e => .error e
    | .ok tAcc =>
      let fAcc := if skipFn = false then processFuncs env user (env.functionsOf schema) acc.2
                  else acc.2
      .ok (tAcc, fAcc)

/-- The schema loop of `create_config_dict`. -/
def processSchemas (env : DBEnv) (user : Option String) (skipFn : Bool) :
    List String → List (String × TblDict) × List (String × FuncDict) →
    Except PyErr (List (String × TblDict) × List (String × FuncDict))
  | [], acc => .ok acc
  | s :: rest, acc =>
    match processSchema env user skipFn acc s with
    | .error e => .error e
    | .ok acc' => processSchemas env user skipFn rest acc'

/-- The aggregate document returned by `create_config_dict`: each top-level
key is present (`some`) or absent (`none`). -/
structure AggDict where
  table_sources : Option (List (String × TblDict))
  function_sources : Option (List (String × FuncDict))
  deriving DecidableEq, Repr

/-- The final conditional returns of `create_config_dict` (lines 89-95):
both maps nonempty → both keys; exactly one nonempty → only that key;
both empty → fall through, returning Python `None`. -/
def finalizeCfg (scfg : List (String × TblDict)) (fcfg : List (String × FuncDict)) :
    Option AggDict :=
  if scfg ≠ [] ∧ fcfg ≠ [] then some ⟨some scfg, some fcfg⟩
  else if scfg ≠ [] then some ⟨some scfg, none⟩
  else if fcfg ≠ [] then some ⟨none, some fcfg⟩
  else none

/-- `config.create_config_dict`: when the requested schema list is falsy,
use all available schemas; run the schema loop from empty accumulators;
assemble the aggregate. Connection-establishment failures happen before
any of this and are outside the model. -/
def create_config_dict (env : DBEnv) (schemas : List String) (user : Option String)
    (skipFn : Bool) : Except PyErr (Option AggDict) :=
  let ss := if schemas.isEmpty then env.availableSchemas else schemas
  match processSchemas env user skipFn ss ([], []) with
  | .error e => .error e
  | .ok (scfg, fcfg) => .ok (finalizeCfg scfg fcfg)

/- ===============================================================
   URL-query-string annotation encoding
   (urllib quote_plus / urlencode / parse_qsl / unquote, as called by
    set_table_comment / set_column_comment / get_table_comment /
    get_column_comment in db.py; strings as `List Char`)
   =============================================================== -/

/-- Decimal digit character. -/
def digChar (k : Nat) : Char :=
  if k = 0 then '0' else if k = 1 then '1' else if k = 2 then '2' else if k = 3 then '3'
  else if k = 4 then '4' else if k = 5 then '5' else if k = 6 then '6' else if k = 7 then '7'
  else if k = 8 then '8' else '9'

/-- Uppercase hexadecimal digit character. -/
def hexUp : Nat → Char
  | 10 => 'A' | 11 => 'B' | 12 => 'C' | 13 => 'D' | 14 => 'E' | 15 => 'F'
  | n => digChar n

/-- Is this an ASCII decimal digit (code points 48 to 57)? -/
def isDig (c : Char) : Bool :=
  48 ≤ c.toNat && c.toNat ≤ 57

/-- A character from `[A-Za-z0-9_]` (ASCII letters, digits, underscore). -/
def wordChar (c : Char) : Bool :=
  (65 ≤ c.toNat && c.toNat ≤ 90) || (97 ≤ c.toNat && c.toNat ≤ 122) || isDig c || c = '_'

/-- Is this an ASCII hexadecimal digit? -/
def isHexDig (c : Char) : Bool :=
  isDig c || (decide ('a' ≤ c) && decide (c ≤ 'f')) || (decide ('A' ≤ c) && decide (c ≤ 'F'))

/-- Numeric value of a hexadecimal digit. -/
def hexVal (c : Char) : Nat :=
  if isDig c then c.toNat - 48
  else if decide ('a' ≤ c) && decide (c ≤ 'f') then c.toNat - 87
  else if decide ('A' ≤ c) && decide (c ≤ 'F') then c.toNat - 55
  else 0

/-- One character of urllib `quote_plus` with its default safe set: ASCII
letters, digits and `_.-~` pass through, a space becomes `+`, anything
else is percent-encoded as `%XX` (modelled for code points below 128,
which encode as a single byte). -/
def quoteChar (c : Char) : List Char :=
  if wordChar c || c = '.' || c = '-' || c = '~' then [c]
  else if c = ' ' then ['+']
  else ['%', hexUp (c.toNat / 16 % 16), hexUp (c.toNat % 16)]

/-- urllib `quote_plus`. -/
def quote_plus (s : List Char) : List Char :=
  s.flatMap quoteChar

/-- Python `sep.join(parts)` for a one-character separator. -/
def pyJoin (c : Char) : List (List Char) → List Char
  | [] => []
  | [x] => x
  | x :: xs => x ++ c :: pyJoin c xs

/-- urllib `urlencode` on a mapping: `&`-joined `quote_plus(k)=quote_plus(v)`
pairs in insertion order. -/
def urlencode (m : List (List Char × List Char)) : List Char :=
  pyJoin '&' (m.map fun p => quote_plus p.1 ++ '=' :: quote_plus p.2)

/-- Python `s.split(sep)` for a one-character separator (never returns an
empty list; splitting the empty string gives one empty part). -/
def pySplit (sep : Char) : List Char → List (List Char)
  | [] => [[]]
  | c :: rest =>
    if c = sep then [] :: pySplit sep rest
    else match pySplit sep rest with
      | [] => [[c]]
      | g :: gs => (c :: g) :: gs

/-- Python `s.split(sep, 1)`: split at the first occurrence of `sep`, or
`none` when `sep` does not occur. -/
def splitFirstBy (sep : Char) : List Char → Option (List Char × List Char)
  | [] => none
  | c :: rest =>
    if c = sep then some ([], rest)
    else (splitFirstBy sep rest).map (fun p => (c :: p.1, p.2))

/-- urllib `unquote` (modelled for single-byte percent escapes): decode
each valid `%XX` escape, keep invalid escapes as literal text. -/
def unquote : List Char → List Char
  | [] => []
  | c :: rest =>
    if c = '%' then
      match hr : rest with
      | a :: b :: rest2 =>
        if isHexDig a && isHexDig b then
          Char.ofNat (16 * hexVal a + hexVal b) :: unquote rest2
        else c :: unquote (a :: b :: rest2)
      | _ => c :: unquote rest
    else c :: unquote rest
termination_by l => l.length
decreasing_by all_goals simp_arith [*]

/-- The `.replace('+', ' ')` followed by `unquote` that urllib `parse_qsl`
applies to each name and value. -/
def unquote_plus (s : List Char) : List Char :=
  unquote (s.map (fun c => if c = '+' then ' ' else c))

/-- One `name_value` chunk of urllib `parse_qsl` under its default
arguments (`strict_parsing=False`, `keep_blank_values=False`): an empty
chunk is skipped, a chunk without `=` is skipped, a pair with an empty
value is skipped, and name and value get `+` turned into spaces and
percent escapes decoded. -/
def parsePair (chunk : List Char) : Option (List Char × List Char) :=
  if chunk.isEmpty then none
  else match splitFirstBy '=' chunk with
    | none => none
    | some (n, v) =>
      if v.isEmpty then none else some (unquote_plus n, unquote_plus v)

/-- urllib `parse_qsl` with default arguments: split on `&` (the empty
query yields no chunks) and keep the chunks that parse as pairs. -/
def parse_qsl (qs : List Char) : List (List Char × List Char) :=
  (if qs.isEmpty then [] else pySplit '&' qs).filterMap parsePair

/-- The pure core of `set_table_comment` / `set_column_comment` (db.py
lines 194-230 / 130-167): the stored comment text is `urlencode(value)`. -/
def encodeComment (value : List (List Char × List Char)) : List Char :=
  urlencode value

/-- The pure core of `get_table_comment` / `get_column_comment` (db.py
lines 233-259 / 101-127): the fetched comment text is decoded with
`dict(parse_qsl(result, strict_parsing=False))`. -/
def decodeComment (s : List Char) : List (List Char × List Char) :=
  pyDictOf (parse_qsl s)

/- ===============================================================
   Connection descriptor <-> DSN string (utils.py: cd2s lines 31-48,
   cs2d lines 51-99)
   =============================================================== -/

/-- A connection descriptor: the named parameters of `cd2s`, with the
extra keyword arguments (`**kwargs`) as an options mapping. -/
structure ConnDesc where
  user : List Char
  password : List Char
  host : List Char
  port : Nat
  database : List Char
  options : List (List Char × List Char)

/-- Decimal digits of a natural number, accumulated most significant
first; `fuel` bounds the number of divisions (any `fuel` with
`n < 10 ^ fuel` is enough). -/
def natDecAux : Nat → Nat → List Char → List Char
  | 0, _, acc => acc
  | fuel + 1, n, acc =>
    if n < 10 then digChar n :: acc
    else natDecAux fuel (n / 10) (digChar (n % 10) :: acc)

/-- Python `f'{n}'` for a natural number. -/
def natDec (n : Nat) : List Char :=
  natDecAux (n + 1) n []

/-- The `ssl` fixup at the top of `cd2s`: when the options contain an
`ssl` key, set `sslmode` to its value and delete `ssl`. -/
def sslFixup (kwargs : List (List Char × List Char)) : List (List Char × List Char) :=
  match lookupA kwargs "ssl".data with
  | none => kwargs
  | some v => removeKeyA (updateA kwargs ("sslmode".data, v)) "ssl".data

/-- `utils.cd2s`: the f-string
`postgres://{quote_plus(user)}:{quote_plus(password)}@{quote_plus(host)}:{port}/{database}?{urlencode(kwargs)}`
(note that `port` and `database` are interpolated without quoting). -/
def cd2s (d : ConnDesc) : List Char :=
  let kw := sslFixup d.options
  "postgres://".data ++ quote_plus d.user ++ ':' :: quote_plus d.password
    ++ '@' :: quote_plus d.host ++ ':' :: natDec d.port
    ++ '/' :: d.database ++ '?' :: urlencode kw

/-- Split at the first occurrence of `sep`, keeping everything when `sep`
does not occur (Python `partition` without the separator component). -/
def breakAt (sep : Char) (s : List Char) : List Char × List Char :=
  match splitFirstBy sep s with
  | some (a, b) => (a, b)
  | none => (s, [])

/-- Split at the last occurrence of `sep` (Python `rpartition` /
`rsplit(sep, 1)`), or `none` when `sep` does not occur. -/
def rpartAt (sep : Char) (s : List Char) : Option (List Char × List Char) :=
  match splitFirstBy sep s.reverse with
  | some (x, y) => some (y.reverse, x.reverse)
  | none => none

/-- A netloc character: anything up to the next `/`, `?` or `#`. -/
def nlChar (c : Char) : Bool :=
  !(c == '/' || c == '?' || c == '#')

/-- The components `urlparse` exposes that `cs2d` consumes. -/
structure UrlParts where
  netloc : List Char
  path : List Char
  query : List Char

/-- Modelled from `urllib.parse.urlparse` for absolute URLs of the form
`scheme://netloc/path?query#fragment`: the scheme ends at the first `:`,
the netloc follows `//` and runs to the next `/`, `?` or `#`, the
fragment starts at the first `#` of the remainder and the query at the
first `?` before it. -/
def urlsplitM (u : List Char) : UrlParts :=
  let rest := match splitFirstBy ':' u with
    | some (_, r) => r
    | none => u
  let nl : List Char × List Char :=
    if rest.take 2 = ['/', '/'] then
      ((rest.drop 2).takeWhile nlChar, (rest.drop 2).dropWhile nlChar)
    else ([], rest)
  let pathq := (breakAt '#' nl.2).1
  let pq := breakAt '?' pathq
  ⟨nl.1, pq.1, pq.2⟩

/-- `url.username`: the userinfo (before the last `@`) up to its first
`:`; `none` when the netloc has no `@`. -/
def urlUsername (netloc : List Char) : Option (List Char) :=
  match rpartAt '@' netloc with
  | some (ui, _) => some (breakAt ':' ui).1
  | none => none

/-- `url.password`: the userinfo after its first `:`; `none` when absent. -/
def urlPassword (netloc : List Char) : Option (List Char) :=
  match rpartAt '@' netloc with
  | some (ui, _) => (splitFirstBy ':' ui).map (fun p => p.2)
  | none => none

/-- `url.hostname`: the netloc after the last `@`, up to the port `:`,
lower-cased (urllib documents the hostname attribute as always lower
case; IPv6 brackets and zone ids are outside the model). -/
def urlHostname (netloc : List Char) : List Char :=
  let hi := match rpartAt '@' netloc with
    | some (_, h) => h
    | none => netloc
  (breakAt ':' hi).1.map lowerChar

/-- `url.port`: the port part after the `:` following the host, cast with
`int(..., 10)` and validated to the range 0-65535 — a non-numeric or
out-of-range port makes the property raise `ValueError`; `.ok none` when
the port part is absent or empty. (Exotic spellings `int` also accepts —
a sign, digit-group underscores, surrounding whitespace — and IPv6
brackets are outside the model.) -/
def urlPortE (netloc : List Char) : Except PyErr (Option Nat) :=
  let hi := match rpartAt '@' netloc with
    | some (_, h) => h
    | none => netloc
  match splitFirstBy ':' hi with
  | some (_, p) =>
    if p = [] then .ok none
    else if p.all isDig then
      if chars2nat p ≤ 65535 then .ok (some (chars2nat p))
      else .error (.valueError "Port out of range 0-65535")
    else .error (.valueError "Port could not be cast to integer value")
  | none => .ok none

/-- Does `pat` occur at the head of the list? -/
def leadsWith : List Char → List Char → Bool
  | [], _ => true
  | _ :: _, [] => false
  | a :: pa, b :: pb => a == b && leadsWith pa pb

/-- Python `sub in s`: does `pat` occur anywhere in `s`? -/
def hasSub (pat : List Char) : List Char → Bool
  | [] => pat.isEmpty
  | c :: rest => leadsWith pat (c :: rest) || hasSub pat rest

/-- Python `s.replace(old, new)` for a nonempty `old`: replace
non-overlapping occurrences left to right. -/
def replaceAll (pat rep : List Char) : List Char → List Char
  | [] => []
  | c :: rest =>
    if h : pat ≠ [] ∧ leadsWith pat (c :: rest) then
      rep ++ replaceAll pat rep ((c :: rest).drop pat.length)
    else c :: replaceAll pat rep rest
termination_by l => l.length
decreasing_by
  · simp only [List.length_drop, List.length_cons]
    have := List.length_pos.mpr h.1
    omega
  · simp_arith

/-- A value in the config dict built by `cs2d`: a string or the integer
port. -/
inductive CfgVal where
  | s : List Char → CfgVal
  | n : Nat → CfgVal
  deriving DecidableEq, Repr

/-- `utils.cs2d`: parse the DSN with `urlparse`; strip the leading `/`
from the path; re-split a query hiding in the path (dead for `urlparse`
outputs); recover a percent-encoded host from the raw netloc when the
hostname contains `%2f`; read `url.port` (which raises `ValueError` for a
non-numeric or out-of-range port — the function does not catch it); turn
`sslmode` back into `ssl` inside the query and parse it with `parse_qsl`
into the config dict; then overwrite the `database`, `user`, `password`,
`host` and `port` entries, the port entry being `port or ''` — the empty
string when the port is absent or the falsy integer `0`. -/
def cs2d (u : List Char) : Except PyErr (List (List Char × CfgVal)) :=
  let parts := urlsplitM u
  let path0 := parts.path.drop 1
  let pq : List Char × List Char :=
    if path0.contains '?' && parts.query.isEmpty then breakAt '?' path0
    else (path0, parts.query)
  let path := pq.1
  let query := pq.2
  let hostname0 := urlHostname parts.netloc
  let hostname :=
    if hasSub "%2f".data (hostname0.map lowerChar) then
      let h2 := match rpartAt '@' parts.netloc with
        | some (_, h) => h
        | none => parts.netloc
      let h3 := if h2.contains ':' then (breakAt ':' h2).1 else h2
      replaceAll "%2F".data "/".data (replaceAll "%2f".data "/".data h3)
    else hostname0
  match urlPortE parts.netloc with
  | .error e => .error e
  | .ok port =>
    let base : List (List Char × CfgVal) :=
      if !query.isEmpty then
        let q2 := if hasSub "sslmode".data query
                  then replaceAll "sslmode".data "ssl".data query
                  else query
        pyDictOf ((parse_qsl q2).map (fun p => (p.1, CfgVal.s p.2)))
      else []
    let fixed : List (List Char × CfgVal) :=
      [("database".data, .s (unquote path)),
       ("user".data, .s (unquote ((urlUsername parts.netloc).getD []))),
       ("password".data, .s (unquote ((urlPassword parts.netloc).getD []))),
       ("host".data, .s hostname),
       ("port".data, match port with
         | some p => if p = 0 then CfgVal.s [] else CfgVal.n p
         | none => CfgVal.s [])]
    .ok (fixed.foldl updateA base)

/- ===============================================================
   Proofs
   =============================================================== -/

section GeomSelection

lemma pickGeom_of_find (rs : List GeomRow) : ∀ (r r0 : GeomRow),
    (r :: rs).find? (fun x => x.srid == 3857) = some r0 → pickGeom r rs = r0 := by
  induction rs with
  | nil =>
    intro r r0 h
    by_cases h3 : r.srid = 3857
    · rw [List.find?_cons_of_pos _ (by simpa using h3)] at h
      simp only [Option.some.injEq] at h
      subst h
      simp [pickGeom, h3]
    · rw [List.find?_cons_of_neg _ (by simpa using h3)] at h
      simp at h
  | cons r2 rest ih =>
    intro r r0 h
    by_cases h3 : r.srid = 3857
    · rw [List.find?_cons_of_pos _ (by simpa using h3)] at h
      simp only [Option.some.injEq] at h
      subst h
      simp [pickGeom, h3]
    · rw [List.find?_cons_of_neg _ (by simpa using h3)] at h
      simp only [pickGeom, h3, if_false]
      exact ih r2 r0 h

lemma pickGeom_last (rs : List GeomRow) : ∀ (r : GeomRow),
    (∀ x ∈ r :: rs, x.srid ≠ 3857) →
    pickGeom r rs = (r :: rs).getLast (List.cons_ne_nil r rs) := by
  induction rs with
  | nil => intro r _; simp [pickGeom, List.getLast]
  | cons r2 rest ih =>
    intro r h
    have h3 : r.srid ≠ 3857 := h r (by simp)
    simp only [pickGeom, h3, if_false]
    rw [ih r2 (fun x hx => h x (List.mem_cons_of_mem _ hx))]
    rw [List.getLast_cons (List.cons_ne_nil r2 rest)]

/-- C2: for every non-empty sequence of geometry-column rows, the selection
loop of `get_table_cfg` picks the first row (in iteration order) whose SRID
is 3857 when one exists, otherwise the last row examined; a single
geometry-column row is selected unconditionally, whatever its SRID. -/
theorem geom_resolver_selection (r : GeomRow) (rs : List GeomRow) :
    (∀ r0, (r :: rs).find? (fun x => x.srid == 3857) = some r0 → pickGeom r rs = r0) ∧
    ((∀ x ∈ r :: rs, x.srid ≠ 3857) →
      pickGeom r rs = (r :: rs).getLast (List.cons_ne_nil r rs)) ∧
    (rs = [] → pickGeom r rs = r) := by
  refine ⟨fun r0 h => pickGeom_of_find rs r r0 h, pickGeom_last rs r, ?_⟩
  rintro rfl
  rfl

/-- Witness for C2 at the spec's SRID set {4326, 3857, 2154}, in an order
that puts 3857 in the middle, plus the no-3857 and singleton cases. -/
theorem geom_resolver_selection_witness :
    pickGeom ⟨"g1", 4326, "POINT", []⟩ [⟨"g2", 3857, "POINT", []⟩, ⟨"g3", 2154, "POINT", []⟩]
      = ⟨"g2", 3857, "POINT", []⟩ ∧
    pickGeom ⟨"g1", 4326, "POINT", []⟩ [⟨"g3", 2154, "POINT", []⟩]
      = ⟨"g3", 2154, "POINT", []⟩ ∧
    pickGeom ⟨"g1", 4326, "POINT", []⟩ [] = ⟨"g1", 4326, "POINT", []⟩ := by
  refine ⟨(geom_resolver_selection _ _).1 _ (by rfl), ?_, (geom_resolver_selection _ _).2.2 rfl⟩
  rw [(geom_resolver_selection _ _).2.1 (by decide)]
  rfl

end GeomSelection

section Serializer

lemma dumpLines_eq_specLines : ∀ (d : List (String × YVal)) (depth lvl : Nat),
    depth = 2 * lvl → dumpLines d depth = specLines d lvl := by
  intro d depth
  induction d, depth using dumpLines.induct with
  | case1 depth =>
    intro lvl _
    simp [dumpLines, specLines]
  | case2 k sub rest depth ih1 ih2 =>
    intro lvl h
    subst h
    simp only [dumpLines, specLines]
    refine congrArg₂ _ ?_ (congrArg₂ _ ?_ ?_)
    · rfl
    · exact ih1 (lvl + 1) (by ring)
    · exact ih2 lvl rfl
  | case3 k v rest depth hnm ih =>
    intro lvl h
    subst h
    cases v with
    | m sub => exact absurd rfl (hnm sub)
    | b bv =>
      simp only [dumpLines, specLines, spacer]
      rw [ih lvl rfl]
    | i n =>
      simp only [dumpLines, specLines, spacer]
      rw [ih lvl rfl]
    | s sv =>
      simp only [dumpLines, specLines, spacer]
      rw [ih lvl rfl]

/-- C8: `dump`, invoked with its default depth 0 and a fresh accumulator,
renders each key at nesting depth `d` indented by exactly `2 * d` spaces,
booleans lower-cased as `true`/`false` and other scalars via their string
form, one key per line: its lines coincide with the spec-side renderer
`specLines`. -/
theorem dump_matches_spec_rendering (d : List (String × YVal)) :
    dumpLines d 0 = specLines d 0 ∧
    (dump d []).1 = if d.isEmpty then none else some (joinNL (specLines d 0)) := by
  have h := dumpLines_eq_specLines d 0 0 (by ring)
  refine ⟨h, ?_⟩
  simp [dump, h]

/-- C9: `dump` is not deterministic across calls made with its default
accumulator: the Python default `content=[]` is shared, so a second call
on the same dictionary returns the first call's lines prefixed to its own. -/
theorem dump_default_accumulator_nondeterminism :
    (dump [("a", .i 1)] []).1 = some "a: 1" ∧
    (dump [("a", .i 1)] (dump [("a", .i 1)] []).2).1 = some "a: 1\na: 1" ∧
    (dump [("a", .i 1)] (dump [("a", .i 1)] []).2).1 ≠ (dump [("a", .i 1)] []).1 := by
  have h1 : dumpLines [("a", YVal.i 1)] 0 = ["a: 1"] := by
    simp only [dumpLines]
    rfl
  have ha : (dump [("a", YVal.i 1)] []).1 = some "a: 1" := by
    simp [dump, h1, joinNL]
    rfl
  have hb : (dump [("a", YVal.i 1)] (dump [("a", YVal.i 1)] []).2).1 = some "a: 1\na: 1" := by
    simp [dump, h1, joinNL]
    rfl
  exact ⟨ha, hb, by rw [ha, hb]; decide⟩

end Serializer

section AggregateShape

lemma finalizeCfg_some (s : List (String × TblDict)) (f : List (String × FuncDict))
    (a : AggDict) (h : finalizeCfg s f = some a) :
    a.table_sources ≠ some [] ∧ a.function_sources ≠ some [] ∧
    (a.table_sources ≠ none ∨ a.function_sources ≠ none) := by
  unfold finalizeCfg at h
  rcases em (s = []) with hs | hs <;> rcases em (f = []) with hf | hf <;>
      simp [hs, hf] at h <;> subst h <;> simp [hs, hf]

/-- C7: an aggregate actually returned by `create_config_dict` never carries
an empty map under `table_sources` or `function_sources`; the key for an
empty map is omitted, and when both maps are empty no aggregate dict with
either key is returned at all (the function returns Python `None`). -/
theorem aggregate_omits_empty_sources (env : DBEnv) (schemas : List String)
    (user : Option String) (skipFn : Bool) (a : AggDict)
    (h : create_config_dict env schemas user skipFn = .ok (some a)) :
    a.table_sources ≠ some [] ∧ a.function_sources ≠ some [] ∧
    (a.table_sources ≠ none ∨ a.function_sources ≠ none) := by
  simp only [create_config_dict] at h
  cases hp : processSchemas env user skipFn
      (if schemas.isEmpty then env.availableSchemas else schemas) ([], []) with
  | error e => rw [hp] at h; simp at h
  | ok pair =>
    obtain ⟨scfg, fcfg⟩ := pair
    rw [hp] at h
    simp only [Except.ok.injEq] at h
    exact finalizeCfg_some scfg fcfg a h

end AggregateShape

/- ===============================================================
   Concrete database environments used by witnesses and
   counterexamples
   =============================================================== -/

/-- A geometry row shared by the concrete environments. -/
def row0 : GeomRow := ⟨"geom", 3857, "MULTIPOLYGON", [("c1", "float8"), ("c2", "int4")]⟩

/-- Annotation-mode environment: schema `s` with table `s.t1` (comment
without a `publish` key) and table `s.t2` (comment `publish=true`, column
`c2` annotated `publish=false`). -/
def env0 : DBEnv where
  availableSchemas := ["s"]
  tablesOf := fun sch => if sch = "s" then ["s.t1", "s.t2"] else []
  tableComment := fun t => if t = "s.t2" then .ok [("publish", "true")] else .ok []
  columnComment := fun _ c => if c = "c2" then .ok [("publish", "false")] else .ok []
  tableColumns := fun t => if t = "s.t2" then .ok [row0] else .ok []
  bboxOf := fun _ _ _ => .ok [0, 0, 1, 1]
  primaryKey := fun _ => .ok []
  functionsOf := fun _ => []
  schemaAccessible := fun _ _ => true
  tableAccessible := fun _ _ => .ok true
  columnAccessible := fun _ _ _ => .ok true
  funcAccessible := fun _ _ _ => true
  evalOther := fun s => .error (.nameError s)

/-- The table record `create_config_dict env0 ["s"] none true` builds for
`s.t2`. -/
def tbl0 : TblDict :=
  ⟨"s.t2", "s", "t2", [0, 0, 1, 1], 3857, "geom", "~", 4096, 64, "MULTIPOLYGON", true,
    [("c1", "float8")]⟩

/-- Environment whose single table `s.t` carries the annotation
`publish=none`. -/
def env10 : DBEnv where
  availableSchemas := ["s"]
  tablesOf := fun sch => if sch = "s" then ["s.t"] else []
  tableComment := fun _ => .ok [("publish", "none")]
  columnComment := fun _ _ => .ok []
  tableColumns := fun _ => .ok [row0]
  bboxOf := fun _ _ _ => .ok [0, 0, 1, 1]
  primaryKey := fun _ => .ok []
  functionsOf := fun _ => []
  schemaAccessible := fun _ _ => true
  tableAccessible := fun _ _ => .ok true
  columnAccessible := fun _ _ _ => .ok true
  funcAccessible := fun _ _ _ => true
  evalOther := fun s => .error (.nameError s)

/-- The table record `create_config_dict env10 ["s"] none true` builds for
`s.t`. -/
def tbl10 : TblDict :=
  ⟨"s.t", "s", "t", [0, 0, 1, 1], 3857, "geom", "~", 4096, 64, "MULTIPOLYGON", true,
    [("c1", "float8"), ("c2", "int4")]⟩

/-- Environment with column annotations exercising the different
annotation value shapes (`TRUE`, `False`, `nOnE`, `yes`). -/
def env3 : DBEnv where
  availableSchemas := ["s"]
  tablesOf := fun _ => []
  tableComment := fun _ => .ok [("publish", "none")]
  columnComment := fun _ c =>
    if c = "c_true" then .ok [("publish", "TRUE")]
    else if c = "c_false" then .ok [("publish", "False")]
    else if c = "c_none" then .ok [("publish", "nOnE")]
    else .ok [("publish", "yes")]
  tableColumns := fun _ => .ok []
  bboxOf := fun _ _ _ => .ok [0, 0, 1, 1]
  primaryKey := fun _ => .ok []
  functionsOf := fun _ => []
  schemaAccessible := fun _ _ => true
  tableAccessible := fun _ _ => .ok true
  columnAccessible := fun _ _ _ => .ok true
  funcAccessible := fun _ _ _ => true
  evalOther := fun s => .error (.nameError s)

/-- Environment whose single table `s.t` is annotated `publish=true` but
whose `get_table_columns` query raises. -/
def env4 : DBEnv where
  availableSchemas := ["s"]
  tablesOf := fun sch => if sch = "s" then ["s.t"] else []
  tableComment := fun _ => .ok [("publish", "true")]
  columnComment := fun _ _ => .ok []
  tableColumns := fun _ => .error (.dbError "boom")
  bboxOf := fun _ _ _ => .ok [0, 0, 1, 1]
  primaryKey := fun _ => .ok []
  functionsOf := fun _ => []
  schemaAccessible := fun _ _ => true
  tableAccessible := fun _ _ => .ok true
  columnAccessible := fun _ _ _ => .ok true
  funcAccessible := fun _ _ _ => true
  evalOther := fun s => .error (.nameError s)

/-- Environment where the table-comment fetch itself raises. -/
def env4a : DBEnv where
  availableSchemas := ["s"]
  tablesOf := fun sch => if sch = "s" then ["s.t"] else []
  tableComment := fun _ => .error (.dbError "comment boom")
  columnComment := fun _ _ => .ok []
  tableColumns := fun _ => .ok [row0]
  bboxOf := fun _ _ _ => .ok [0, 0, 1, 1]
  primaryKey := fun _ => .ok []
  functionsOf := fun _ => []
  schemaAccessible := fun _ _ => true
  tableAccessible := fun _ _ => .ok true
  columnAccessible := fun _ _ _ => .ok true
  funcAccessible := fun _ _ _ => true
  evalOther := fun s => .error (.nameError s)

/-- Environment where the bounding-box query raises. -/
def env4b : DBEnv where
  availableSchemas := ["s"]
  tablesOf := fun sch => if sch = "s" then ["s.t"] else []
  tableComment := fun _ => .ok [("publish", "true")]
  columnComment := fun _ _ => .ok []
  tableColumns := fun _ => .ok [row0]
  bboxOf := fun _ _ _ => .error (.dbError "bbox boom")
  primaryKey := fun _ => .ok []
  functionsOf := fun _ => []
  schemaAccessible := fun _ _ => true
  tableAccessible := fun _ _ => .ok true
  columnAccessible := fun _ _ _ => .ok true
  funcAccessible := fun _ _ _ => true
  evalOther := fun s => .error (.nameError s)

/-- C10: a table comment `publish=none` makes annotation-mode table publish
resolution return Python `None` (no exception), and since the assembler
skips a table only when the decision `== False`, the table lands in the
aggregate: the tables-default-to-hidden rule is bypassed by a non-boolean
literal. -/
theorem none_publish_table_included :
    table_is_publishable env10 "s.t" = .ok .pNone ∧
    pyEqFalse .pNone = false ∧
    create_config_dict env10 ["s"] none true = .ok (some ⟨some [("s.t:", tbl10)], none⟩) ∧
    hasKeyA [("s.t:", tbl10)] "s.t:" = true := by
  exact ⟨rfl, rfl, rfl, rfl⟩

/-- Witness for C7: a run over `env0` yields an aggregate with a nonempty
`table_sources` and no `function_sources` key. -/
theorem aggregate_omits_empty_sources_witness :
    (⟨some [("s.t2:", tbl0)], none⟩ : AggDict).table_sources ≠ some [] ∧
    (⟨some [("s.t2:", tbl0)], none⟩ : AggDict).function_sources ≠ some [] ∧
    ((⟨some [("s.t2:", tbl0)], none⟩ : AggDict).table_sources ≠ none ∨
      (⟨some [("s.t2:", tbl0)], none⟩ : AggDict).function_sources ≠ none) :=
  aggregate_omits_empty_sources env0 ["s"] none true _ rfl

section AnnotationParsing

/-- C3 counterexample: the annotation value `none` is not a
case-insensitive true/false literal, yet annotation-mode publish
resolution returns Python `None` for the column and for the table instead
of raising any hard failure. -/
theorem nonboolean_publish_value_does_not_raise :
    column_is_publishable env3 "s.t" "c_none" = .ok .pNone ∧
    table_is_publishable env3 "s.t" = .ok .pNone :=
  ⟨rfl, rfl⟩

/-- C3 (amended): for a `publish` annotation value, case-insensitive
`true`/`false` parse to the corresponding boolean; case-insensitive `none`
yields Python `None` without raising (so a non-boolean value is not always
a hard failure, and the code has no `MalformedAnnotationError` of its
own); and a value whose `.lower().capitalize()` form is a capitalized
bare identifier other than the six resolvable builtin names — e.g.
`publish=yes` — raises `eval`'s `NameError`. -/
theorem publish_value_parsing (env : DBEnv) (t c : String)
    (cd : List (String × String)) (v : String)
    (hc : env.columnComment t c = .ok cd) (hv : lookupA cd "publish" = some v) :
    (pyLower v = "true" → column_is_publishable env t c = .ok (.pBool true)) ∧
    (pyLower v = "false" → column_is_publishable env t c = .ok (.pBool false)) ∧
    (pyLower v = "none" → column_is_publishable env t c = .ok .pNone) ∧
    (capIdentName (lowerCap v) = true →
      lowerCap v ∉ (["True", "False", "None", "Ellipsis", "Exception", "Warning"] : List String) →
      column_is_publishable env t c = .error (.nameError (lowerCap v))) := by
  have hcol : column_is_publishable env t c = pyEval env.evalOther (lowerCap v) := by
    simp only [column_is_publishable, hc, hv]
  refine ⟨?_, ?_, ?_, ?_⟩
  · intro h
    rw [hcol]
    unfold lowerCap
    rw [h]
    rfl
  · intro h
    rw [hcol]
    unfold lowerCap
    rw [h]
    rfl
  · intro h
    rw [hcol]
    unfold lowerCap
    rw [h]
    rfl
  · intro hcap h1
    have e1 : lowerCap v ≠ "True" := fun hh => h1 (by simp [hh])
    have e2 : lowerCap v ≠ "False" := fun hh => h1 (by simp [hh])
    have e3 : lowerCap v ≠ "None" := fun hh => h1 (by simp [hh])
    have e4 : ¬(lowerCap v = "Ellipsis" ∨ lowerCap v = "Exception" ∨ lowerCap v = "Warning") := by
      rintro (hh | hh | hh) <;> exact h1 (by simp [hh])
    have hnd : ¬(lowerCap v ≠ "" ∧ (lowerCap v).data.all decDigit = true) := by
      rintro ⟨-, hall⟩
      cases hd : (lowerCap v).data with
      | nil =>
        unfold capIdentName at hcap
        rw [hd] at hcap
        exact Bool.noConfusion hcap
      | cons c0 cr =>
        have hcap2 : ((65 ≤ c0.toNat && c0.toNat ≤ 90) &&
            cr.all (fun d => 97 ≤ d.toNat && d.toNat ≤ 122)) = true := by
          unfold capIdentName at hcap
          rw [hd] at hcap
          exact hcap
        rw [hd] at hall
        simp only [List.all_cons, Bool.and_eq_true, decide_eq_true_eq] at hcap2 hall
        have hdig := hall.1
        simp only [decDigit, Bool.and_eq_true, decide_eq_true_eq] at hdig
        obtain ⟨⟨h65, h90⟩, -⟩ := hcap2
        omega
    rw [hcol]
    unfold pyEval
    rw [if_neg e1, if_neg e2, if_neg e3, if_neg e4, if_neg hnd, if_pos hcap]

/-- Witness for C3 (amended) on `env3`: `TRUE` parses to true, `False` to
false, `nOnE` to Python `None`, and `yes` raises. -/
theorem publish_value_parsing_witness :
    column_is_publishable env3 "s.t" "c_true" = .ok (.pBool true) ∧
    column_is_publishable env3 "s.t" "c_false" = .ok (.pBool false) ∧
    column_is_publishable env3 "s.t" "c_none" = .ok .pNone ∧
    column_is_publishable env3 "s.t" "c_yes" = .error (.nameError "Yes") := by
  refine ⟨(publish_value_parsing env3 "s.t" "c_true" _ "TRUE" rfl rfl).1 rfl,
          (publish_value_parsing env3 "s.t" "c_false" _ "False" rfl rfl).2.1 rfl,
          (publish_value_parsing env3 "s.t" "c_none" _ "nOnE" rfl rfl).2.2.1 rfl,
          ?_⟩
  exact (publish_value_parsing env3 "s.t" "c_yes" _ "yes" rfl rfl).2.2.2
    (by decide) (by decide)

end AnnotationParsing

section ErrorPolicy

/-- C4 counterexample: in the run over `env4` a single table's
column-fetch query (`get_table_columns`) raises; nothing catches it, so
`create_config_dict` — the whole run — aborts with that error instead of
skipping the entity. -/
theorem run_aborts_on_column_fetch_failure :
    create_config_dict env4 ["s"] none true = .error (.dbError "boom") :=
  rfl

/-- C4 (amended): a table-comment fetch failure is caught at the assembler
boundary (the table is skipped, the run continues), and a bounding-box
failure is caught inside `get_table_cfg` (the table is skipped); but a
column-fetch (`get_table_columns`) failure propagates out of
`get_table_cfg` uncaught and aborts the run. -/
theorem per_entity_error_policy (env : DBEnv) (t : String) (user : Option String) (e : PyErr) :
    (env.tableComment t = .error e → processTable env none t = .ok none) ∧
    (∀ r rs bbE, env.tableColumns t = .ok (r :: rs) →
      env.bboxOf t (pickGeom r rs).geom_column (pickGeom r rs).srid = .error bbE →
      get_table_cfg env user t = .ok none) ∧
    (env.tableColumns t = .error e → get_table_cfg env user t = .error e) := by
  refine ⟨?_, ?_, ?_⟩
  · intro h
    have hr : resolveWillPublish env none t = .error e := by
      simp only [resolveWillPublish, table_is_publishable, h]
    simp only [processTable, hr]
  · intro r rs bbE hc hb
    simp only [get_table_cfg, hc, hb]
  · intro h
    simp only [get_table_cfg, h]

/-- Witness for C4 (amended): `env4a` (comment fetch raises) skips the
table, `env4b` (bounding box raises) skips the table, `env4` (column
fetch raises) propagates the error. -/
theorem per_entity_error_policy_witness :
    processTable env4a none "s.t" = .ok none ∧
    get_table_cfg env4b none "s.t" = .ok none ∧
    get_table_cfg env4 none "s.t" = .error (.dbError "boom") := by
  refine ⟨(per_entity_error_policy env4a "s.t" none (.dbError "comment boom")).1 rfl,
          (per_entity_error_policy env4b "s.t" none (.dbError "bbox boom")).2.1
            row0 [] (.dbError "bbox boom") rfl rfl,
          (per_entity_error_policy env4 "s.t" none (.dbError "boom")).2.2 rfl⟩

end ErrorPolicy

section KeyMembership

variable {α β : Type} [DecidableEq α]

lemma lookupA_map_update (kv : α × β) (K : α) (hK : K ≠ kv.1) (l : List (α × β)) :
    lookupA (l.map (fun p => if p.1 = kv.1 then kv else p)) K = lookupA l K := by
  induction l with
  | nil => rfl
  | cons q rest ih =>
    simp only [List.map_cons]
    by_cases hq : q.1 = kv.1
    · have h1 : ¬(kv.1 = K) := fun hh => hK hh.symm
      have h2 : ¬(q.1 = K) := fun hh => hK ((hq.symm.trans hh).symm)
      rw [if_pos hq]
      simp only [lookupA]
      rw [if_neg h1, if_neg h2]
      exact ih
    · rw [if_neg hq]
      simp only [lookupA]
      by_cases hqK : q.1 = K
      · rw [if_pos hqK, if_pos hqK]
      · rw [if_neg hqK, if_neg hqK]
        exact ih

lemma lookupA_map_update_self (kv : α × β) (l : List (α × β))
    (h : hasKeyA l kv.1 = true) :
    lookupA (l.map (fun p => if p.1 = kv.1 then kv else p)) kv.1 = some kv.2 := by
  induction l with
  | nil => simp [hasKeyA, lookupA] at h
  | cons q rest ih =>
    simp only [List.map_cons]
    by_cases hq : q.1 = kv.1
    · rw [if_pos hq]
      simp [lookupA]
    · have h' : hasKeyA rest kv.1 = true := by
        simpa [hasKeyA, lookupA, hq] using h
      rw [if_neg hq]
      simp only [lookupA]
      rw [if_neg hq]
      exact ih h'

lemma lookupA_append (m1 m2 : List (α × β)) (K : α) :
    lookupA (m1 ++ m2) K =
      match lookupA m1 K with
      | some v => some v
      | none => lookupA m2 K := by
  induction m1 with
  | nil => simp [lookupA]
  | cons q rest ih => by_cases hq : q.1 = K <;> simp [lookupA, hq, ih]

lemma lookupA_updateA (m : List (α × β)) (kv : α × β) (K : α) :
    lookupA (updateA m kv) K = if K = kv.1 then some kv.2 else lookupA m K := by
  unfold updateA
  by_cases hk : hasKeyA m kv.1
  · rw [if_pos hk]
    by_cases hK : K = kv.1
    · subst hK
      rw [if_pos rfl, lookupA_map_update_self kv m hk]
    · rw [if_neg hK, lookupA_map_update kv K hK m]
  · rw [if_neg hk, lookupA_append]
    by_cases hK : K = kv.1
    · subst hK
      have hnone : lookupA m kv.1 = none := by
        cases hl : lookupA m kv.1 with
        | none => rfl
        | some v => exact absurd (by simp [hasKeyA, hl]) hk
      rw [if_pos rfl, hnone]
      simp [lookupA]
    · rw [if_neg hK]
      cases hl : lookupA m K with
      | none =>
        have : ¬(kv.1 = K) := fun hh => hK hh.symm
        simp [lookupA, this]
      | some v => rfl

lemma hasKeyA_updateA (m : List (α × β)) (kv : α × β) (K : α)
    (h : hasKeyA (updateA m kv) K = true) : hasKeyA m K = true ∨ kv.1 = K := by
  unfold hasKeyA at *
  rw [lookupA_updateA] at h
  by_cases hK : K = kv.1
  · right; exact hK.symm
  · left; rwa [if_neg hK] at h

end KeyMembership

lemma append_colon_inj (a b : String) (h : a ++ ":" = b ++ ":") : a = b := by
  have h2 := congrArg String.data h
  simp only [String.data_append] at h2
  have h3 : a.data = b.data := List.append_cancel_right h2
  cases a
  cases b
  exact congrArg String.mk h3

section TableKeys

lemma get_table_cfg_key (env : DBEnv) (u : Option String) (t : String)
    (kv : String × TblDict) (h : get_table_cfg env u t = .ok (some kv)) :
    kv.1 = t ++ ":" := by
  cases hcols : env.tableColumns t with
  | error e => simp [get_table_cfg, hcols] at h
  | ok cols =>
    cases cols with
    | nil => simp [get_table_cfg, hcols] at h
    | cons r rs =>
      simp only [get_table_cfg, hcols] at h
      cases hbb : env.bboxOf t (pickGeom r rs).geom_column (pickGeom r rs).srid with
      | error e => rw [hbb] at h; simp at h
      | ok bb =>
        rw [hbb] at h
        cases hfp : filterProps env u t (pickGeom r rs).properties with
        | error e => rw [hfp] at h; simp at h
        | ok props =>
          rw [hfp] at h
          simp only [Except.ok.injEq, Option.some.injEq] at h
          rw [← h]

lemma processTable_key (env : DBEnv) (u : Option String) (t : String)
    (kv : String × TblDict) (h : processTable env u t = .ok (some kv)) :
    kv.1 = t ++ ":" := by
  unfold processTable at h
  split at h
  · simp at h
  · split at h
    · simp at h
    · exact get_table_cfg_key env u t kv h

lemma processTables_key (env : DBEnv) (u : Option String) (K : String) :
    ∀ (ts : List String) (acc m : List (String × TblDict)),
      processTables env u ts acc = .ok m → hasKeyA m K = true →
      hasKeyA acc K = true ∨
        ∃ t ∈ ts, ∃ kv, processTable env u t = .ok (some kv) ∧ kv.1 = K := by
  intro ts
  induction ts with
  | nil =>
    intro acc m h hm
    simp only [processTables, Except.ok.injEq] at h
    subst h
    exact Or.inl hm
  | cons t rest ih =>
    intro acc m h hm
    unfold processTables at h
    cases hp : processTable env u t with
    | error e => rw [hp] at h; simp at h
    | ok o =>
      rw [hp] at h
      cases o with
      | none =>
        rcases ih acc m h hm with hL | ⟨t', ht', kv, hkv, hk⟩
        · exact Or.inl hL
        · exact Or.inr ⟨t', List.mem_cons_of_mem _ ht', kv, hkv, hk⟩
      | some kv =>
        rcases ih (updateA acc kv) m h hm with hL | ⟨t', ht', kv', hkv', hk'⟩
        · rcases hasKeyA_updateA acc kv K hL with h1 | h2
          · exact Or.inl h1
          · exact Or.inr ⟨t, List.mem_cons_self t rest, kv, hp, h2⟩
        · exact Or.inr ⟨t', List.mem_cons_of_mem _ ht', kv', hkv', hk'⟩

lemma processSchema_key (env : DBEnv) (u : Option String) (skipFn : Bool)
    (acc : List (String × TblDict) × List (String × FuncDict)) (s : String)
    (acc' : List (String × TblDict) × List (String × FuncDict)) (K : String)
    (h : processSchema env u skipFn acc s = .ok acc') (hm : hasKeyA acc'.1 K = true) :
    hasKeyA acc.1 K = true ∨
      ∃ t ∈ env.tablesOf s, ∃ kv, processTable env u t = .ok (some kv) ∧ kv.1 = K := by
  simp only [processSchema] at h
  split at h
  · simp only [Except.ok.injEq] at h
    subst h
    exact Or.inl hm
  · split at h
    · simp only [Except.ok.injEq] at h
      subst h
      exact Or.inl hm
    · cases hpt : processTables env u (env.tablesOf s) acc.1 with
      | error e => rw [hpt] at h; simp at h
      | ok tAcc =>
        rw [hpt] at h
        simp only [Except.ok.injEq] at h
        have h1 : acc'.1 = tAcc := by rw [← h]
        rw [h1] at hm
        exact processTables_key env u K (env.tablesOf s) acc.1 tAcc hpt hm

lemma processSchemas_key (env : DBEnv) (u : Option String) (skipFn : Bool) (K : String) :
    ∀ (ss : List String) (acc acc' : List (String × TblDict) × List (String × FuncDict)),
      processSchemas env u skipFn ss acc = .ok acc' → hasKeyA acc'.1 K = true →
      hasKeyA acc.1 K = true ∨
        ∃ s ∈ ss, ∃ t ∈ env.tablesOf s, ∃ kv,
          processTable env u t = .ok (some kv) ∧ kv.1 = K := by
  intro ss
  induction ss with
  | nil =>
    intro acc acc' h hm
    simp only [processSchemas, Except.ok.injEq] at h
    subst h
    exact Or.inl hm
  | cons s rest ih =>
    intro acc acc' h hm
    unfold processSchemas at h
    cases hps : processSchema env u skipFn acc s with
    | error e => rw [hps] at h; simp at h
    | ok acc1 =>
      rw [hps] at h
      rcases ih acc1 acc' h hm with hL | ⟨s', hs', t', ht', kv, hkv, hk⟩
      · rcases processSchema_key env u skipFn acc s acc1 K hps hL with h1 | ⟨t', ht', kv, hkv, hk⟩
        · exact Or.inl h1
        · exact Or.inr ⟨s, List.mem_cons_self s rest, t', ht', kv, hkv, hk⟩
      · exact Or.inr ⟨s', List.mem_cons_of_mem _ hs', t', ht', kv, hkv, hk⟩

lemma finalizeCfg_tbl (s : List (String × TblDict)) (f : List (String × FuncDict))
    (a : AggDict) (m : List (String × TblDict))
    (h : finalizeCfg s f = some a) (hm : a.table_sources = some m) : m = s := by
  unfold finalizeCfg at h
  rcases em (s = []) with hs | hs <;> rcases em (f = []) with hf | hf
  · simp [hs, hf] at h
  · simp [hs, hf] at h
    rw [← h] at hm
    simp at hm
  · simp [hs, hf] at h
    rw [← h] at hm
    simp only [Option.some.injEq] at hm
    exact hm.symm
  · simp [hs, hf] at h
    rw [← h] at hm
    simp only [Option.some.injEq] at hm
    exact hm.symm

end TableKeys

section PropsFiltering

lemma filterProps_keep (env : DBEnv) (t c : String) (colv : PyLit)
    (hcp : column_is_publishable env t c = .ok colv) (hnf : pyIsFalse colv = false) :
    ∀ (props out : List (String × String)) (v : String),
      filterProps env none t props = .ok out → (c, v) ∈ props → (c, v) ∈ out := by
  intro props
  induction props with
  | nil =>
    intro out v _ hm
    simp at hm
  | cons p rest ih =>
    intro out v h hm
    obtain ⟨k, w⟩ := p
    simp only [filterProps] at h
    split at h
    · simp at h
    · rename_i colv' hck
      split at h
      · simp at h
      · rename_i out' hrest
        split at h
        · rename_i hf
          simp only [Except.ok.injEq] at h
          subst h
          rcases List.mem_cons.mp hm with heq | hmem
          · have hc1 : c = k := congrArg Prod.fst heq
            subst hc1
            rw [hcp] at hck
            have hcc : colv' = colv := Except.ok.inj hck.symm
            rw [hcc, hnf] at hf
            exact absurd hf (by simp)
          · exact ih _ v hrest hmem
        · simp only [Except.ok.injEq] at h
          subst h
          rcases List.mem_cons.mp hm with heq | hmem
          · rw [heq]
            exact List.mem_cons_self _ _
          · exact List.mem_cons_of_mem _ (ih out' v hrest hmem)

lemma filterProps_drop (env : DBEnv) (t c : String)
    (hcp : column_is_publishable env t c = .ok (.pBool false)) :
    ∀ (props out : List (String × String)) (w : String),
      filterProps env none t props = .ok out → (c, w) ∉ out := by
  intro props
  induction props with
  | nil =>
    intro out w h
    simp only [filterProps, Except.ok.injEq] at h
    subst h
    simp
  | cons p rest ih =>
    intro out w h
    obtain ⟨k, v'⟩ := p
    simp only [filterProps] at h
    split at h
    · simp at h
    · rename_i colv' hck
      split at h
      · simp at h
      · rename_i out' hrest
        split at h
        · rename_i hf
          simp only [Except.ok.injEq] at h
          subst h
          exact ih out' w hrest
        · rename_i hf
          simp only [Except.ok.injEq] at h
          subst h
          intro hmem
          rcases List.mem_cons.mp hmem with heq | hmem'
          · have hc1 : c = k := congrArg Prod.fst heq
            subst hc1
            rw [hcp] at hck
            have hcc : colv' = PyLit.pBool false := Except.ok.inj hck.symm
            rw [hcc] at hf
            exact hf rfl
          · exact ih out' w hrest hmem'

lemma get_table_cfg_props (env : DBEnv) (u : Option String) (t : String)
    (r : GeomRow) (rs : List GeomRow) (key : String) (d : TblDict)
    (hcols : env.tableColumns t = .ok (r :: rs))
    (h : get_table_cfg env u t = .ok (some (key, d))) :
    filterProps env u t (pickGeom r rs).properties = .ok d.properties := by
  simp only [get_table_cfg, hcols] at h
  cases hbb : env.bboxOf t (pickGeom r rs).geom_column (pickGeom r rs).srid with
  | error e => rw [hbb] at h; simp at h
  | ok bb =>
    rw [hbb] at h
    cases hfp : filterProps env u t (pickGeom r rs).properties with
    | error e => rw [hfp] at h; simp at h
    | ok props =>
      rw [hfp] at h
      simp only [Except.ok.injEq, Option.some.injEq, Prod.mk.injEq] at h
      rw [← h.2]

end PropsFiltering

/-- C1: in annotation mode, a table whose comment lacks the `publish` key
resolves to `False` and is excluded from the aggregate; a column whose
comment lacks the `publish` key on an included table resolves to Python
`None` (Unknown) and is included in the table's properties; a column with
`publish=false` is excluded even though its table is included. -/
theorem publish_default_resolution (env : DBEnv) :
    (∀ t cd, env.tableComment t = .ok cd → lookupA cd "publish" = none →
      table_is_publishable env t = .ok (.pBool false) ∧
      (∀ schemas skipFn a m, create_config_dict env schemas none skipFn = .ok (some a) →
        a.table_sources = some m → hasKeyA m (t ++ ":") = false)) ∧
    (∀ t c cc, env.columnComment t c = .ok cc → lookupA cc "publish" = none →
      column_is_publishable env t c = .ok .pNone ∧
      (∀ r rs key d v, env.tableColumns t = .ok (r :: rs) →
        get_table_cfg env none t = .ok (some (key, d)) →
        (c, v) ∈ (pickGeom r rs).properties → (c, v) ∈ d.properties)) ∧
    (∀ t c cc vf, env.columnComment t c = .ok cc → lookupA cc "publish" = some vf →
      pyLower vf = "false" →
      ∀ key d w, get_table_cfg env none t = .ok (some (key, d)) →
        (c, w) ∉ d.properties) := by
  refine ⟨?_, ?_, ?_⟩
  · intro t cd hc hk
    have h1 : table_is_publishable env t = .ok (.pBool false) := by
      simp only [table_is_publishable, hc, hk]
    refine ⟨h1, ?_⟩
    intro schemas skipFn a m hcd hts
    by_contra hkey
    rw [Bool.not_eq_false] at hkey
    simp only [create_config_dict] at hcd
    cases hp : processSchemas env none skipFn
        (if schemas.isEmpty then env.availableSchemas else schemas) ([], []) with
    | error e => rw [hp] at hcd; simp at hcd
    | ok pair =>
      obtain ⟨scfg, fcfg⟩ := pair
      rw [hp] at hcd
      simp only [Except.ok.injEq] at hcd
      have hm : m = scfg := finalizeCfg_tbl scfg fcfg a m hcd hts
      rw [hm] at hkey
      rcases processSchemas_key env none skipFn (t ++ ":") _ ([], []) (scfg, fcfg) hp hkey with
        hL | ⟨s, _, t', _, kv, hkv, hk1⟩
      · simp [hasKeyA, lookupA] at hL
      · have hkey' := processTable_key env none t' kv hkv
        have ht'' : t' = t := append_colon_inj t' t (hkey'.symm.trans hk1)
        subst ht''
        have hskip : processTable env none t' = .ok none := by
          simp [processTable, resolveWillPublish, h1, pyEqFalse]
        rw [hskip] at hkv
        simp at hkv
  · intro t c cc hc hk
    have h1 : column_is_publishable env t c = .ok .pNone := by
      simp only [column_is_publishable, hc, hk]
    refine ⟨h1, ?_⟩
    intro r rs key d v hcols hcfg hmem
    have hfp := get_table_cfg_props env none t r rs key d hcols hcfg
    exact filterProps_keep env t c .pNone h1 rfl (pickGeom r rs).properties d.properties v hfp hmem
  · intro t c cc vf hc hk hlow key d w hcfg
    have h1 : column_is_publishable env t c = .ok (.pBool false) := by
      simp only [column_is_publishable, hc, hk]
      unfold lowerCap
      rw [hlow]
      rfl
    cases hcols : env.tableColumns t with
    | error e => simp [get_table_cfg, hcols] at hcfg
    | ok cols =>
      cases cols with
      | nil => simp [get_table_cfg, hcols] at hcfg
      | cons r rs =>
        have hfp := get_table_cfg_props env none t r rs key d hcols hcfg
        exact filterProps_drop env t c h1 (pickGeom r rs).properties d.properties w hfp

/-- Witness for C1 on `env0`: `s.t1` (no `publish` key) resolves to
`False` and its key is absent from the aggregate over schema `s`; on the
included table `s.t2`, column `c1` (no `publish` key) resolves to `None`
and appears in the properties, while column `c2` (`publish=false`) does
not. -/
theorem publish_default_resolution_witness :
    table_is_publishable env0 "s.t1" = .ok (.pBool false) ∧
    hasKeyA [("s.t2:", tbl0)] ("s.t1" ++ ":") = false ∧
    column_is_publishable env0 "s.t2" "c1" = .ok .pNone ∧
    ("c1", "float8") ∈ tbl0.properties ∧
    ("c2", "int4") ∉ tbl0.properties := by
  have h := publish_default_resolution env0
  refine ⟨(h.1 "s.t1" [] rfl rfl).1,
          (h.1 "s.t1" [] rfl rfl).2 ["s"] true ⟨some [("s.t2:", tbl0)], none⟩
            [("s.t2:", tbl0)] rfl rfl,
          (h.2.1 "s.t2" "c1" [] rfl rfl).1,
          (h.2.1 "s.t2" "c1" [] rfl rfl).2 row0 [] "s.t2:" tbl0 "float8" rfl rfl
            (by simp [pickGeom, row0]),
          h.2.2 "s.t2" "c2" [("publish", "false")] "false" rfl rfl rfl "s.t2:" tbl0 "int4" rfl⟩

section CommentRoundTrip

lemma wordChar_not_special {c : Char} (h : wordChar c = true) :
    c ≠ '&' ∧ c ≠ '=' ∧ c ≠ '+' ∧ c ≠ '%' := by
  refine ⟨?_, ?_, ?_, ?_⟩ <;> rintro rfl <;> revert h <;> decide

lemma wordChar_quoteChar (c : Char) (h : wordChar c = true) : quoteChar c = [c] := by
  simp [quoteChar, h]

lemma quote_plus_id (s : List Char) (h : ∀ c ∈ s, wordChar c = true) :
    quote_plus s = s := by
  induction s with
  | nil => rfl
  | cons c rest ih =>
    unfold quote_plus at ih ⊢
    rw [List.flatMap_cons, wordChar_quoteChar c (h c (List.mem_cons_self _ _)),
      ih (fun x hx => h x (List.mem_cons_of_mem _ hx))]
    rfl

lemma pySplit_of_no (sep : Char) (w : List Char) (h : sep ∉ w) : pySplit sep w = [w] := by
  induction w with
  | nil => rfl
  | cons c rest ih =>
    have hc : ¬(c = sep) := fun hh => h (by rw [hh]; exact List.mem_cons_self _ _)
    simp only [pySplit, if_neg hc, ih (fun hm => h (List.mem_cons_of_mem _ hm))]

lemma pySplit_append (sep : Char) (w rest' : List Char) (h : sep ∉ w) :
    pySplit sep (w ++ sep :: rest') = w :: pySplit sep rest' := by
  induction w with
  | nil => simp [pySplit]
  | cons c wr ih =>
    have hc : ¬(c = sep) := fun hh => h (by rw [hh]; exact List.mem_cons_self _ _)
    have ih' := ih (fun hm => h (List.mem_cons_of_mem _ hm))
    simp only [List.cons_append, pySplit, if_neg hc]
    rw [show List.append wr (sep :: rest') = wr ++ sep :: rest' from rfl, ih']

lemma splitFirstBy_append (sep : Char) (k v : List Char) (h : sep ∉ k) :
    splitFirstBy sep (k ++ sep :: v) = some (k, v) := by
  induction k with
  | nil => simp [splitFirstBy]
  | cons c kr ih =>
    have hc : ¬(c = sep) := fun hh => h (by rw [hh]; exact List.mem_cons_self _ _)
    have ih' := ih (fun hm => h (List.mem_cons_of_mem _ hm))
    simp [splitFirstBy, if_neg hc, ih']

lemma splitFirstBy_of_no (sep : Char) (s : List Char) (h : sep ∉ s) :
    splitFirstBy sep s = none := by
  induction s with
  | nil => rfl
  | cons c rest ih =>
    have hc : ¬(c = sep) := fun hh => h (by rw [hh]; exact List.mem_cons_self _ _)
    simp [splitFirstBy, if_neg hc, ih (fun hm => h (List.mem_cons_of_mem _ hm))]

lemma map_plus_id (s : List Char) (h : ∀ c ∈ s, c ≠ '+') :
    s.map (fun c => if c = '+' then ' ' else c) = s := by
  induction s with
  | nil => rfl
  | cons c rest ih =>
    simp only [List.map_cons, if_neg (h c (List.mem_cons_self _ _)),
      ih (fun x hx => h x (List.mem_cons_of_mem _ hx))]

lemma unquote_of_no_percent (s : List Char) (h : '%' ∉ s) : unquote s = s := by
  induction s with
  | nil => simp [unquote]
  | cons c rest ih =>
    have hc : ¬(c = '%') := fun hh => h (by rw [hh]; exact List.mem_cons_self _ _)
    rw [unquote.eq_def]
    simp only [if_neg hc]
    rw [ih (fun hm => h (List.mem_cons_of_mem _ hm))]

lemma unquote_plus_id (s : List Char) (h : ∀ c ∈ s, wordChar c = true) :
    unquote_plus s = s := by
  unfold unquote_plus
  rw [map_plus_id s (fun c hc => (wordChar_not_special (h c hc)).2.2.1),
    unquote_of_no_percent s (fun hm => (wordChar_not_special (h '%' hm)).2.2.2 rfl)]

lemma parsePair_clean (k v : List Char) (hkw : ∀ c ∈ k, wordChar c = true)
    (hvw : ∀ c ∈ v, wordChar c = true) (hvnil : v ≠ []) :
    parsePair (k ++ '=' :: v) = some (k, v) := by
  have hkeq : '=' ∉ k := fun hm => (wordChar_not_special (hkw '=' hm)).2.1 rfl
  have hne : (k ++ '=' :: v).isEmpty = false := by
    cases k <;> rfl
  unfold parsePair
  rw [hne]
  simp only [Bool.false_eq_true, if_false, splitFirstBy_append '=' k v hkeq]
  have hvne : v.isEmpty = false := by
    cases v with
    | nil => exact absurd rfl hvnil
    | cons _ _ => rfl
  rw [hvne]
  simp only [Bool.false_eq_true, if_false, unquote_plus_id k hkw, unquote_plus_id v hvw]

lemma amp_not_mem_chunk (k v : List Char) (hkw : ∀ c ∈ k, wordChar c = true)
    (hvw : ∀ c ∈ v, wordChar c = true) : '&' ∉ k ++ '=' :: v := by
  intro hm
  rcases List.mem_append.mp hm with hm1 | hm2
  · exact (wordChar_not_special (hkw '&' hm1)).1 rfl
  · rcases List.mem_cons.mp hm2 with hm3 | hm4
    · exact absurd hm3 (by decide)
    · exact (wordChar_not_special (hvw '&' hm4)).1 rfl

lemma urlencode_cons_ne_nil (p : List Char × List Char) (ps : List (List Char × List Char)) :
    urlencode (p :: ps) ≠ [] := by
  unfold urlencode
  cases ps with
  | nil => simp [pyJoin]
  | cons q qs => simp [pyJoin]

lemma parse_urlencode (m : List (List Char × List Char))
    (hw : ∀ p ∈ m, p.1 ≠ [] ∧ p.2 ≠ [] ∧
      (∀ c ∈ p.1, wordChar c = true) ∧ (∀ c ∈ p.2, wordChar c = true)) :
    parse_qsl (urlencode m) = m := by
  induction m with
  | nil => rfl
  | cons p ps ih =>
    obtain ⟨k, v⟩ := p
    obtain ⟨hk1, hv1, hkw, hvw⟩ := hw (k, v) (List.mem_cons_self _ _)
    have hqk := quote_plus_id k hkw
    have hqv := quote_plus_id v hvw
    cases ps with
    | nil =>
      unfold urlencode parse_qsl
      simp only [List.map_cons, List.map_nil, pyJoin, hqk, hqv]
      have hne : (k ++ '=' :: v).isEmpty = false := by cases k <;> rfl
      rw [hne]
      simp only [Bool.false_eq_true, if_false]
      rw [pySplit_of_no '&' _ (amp_not_mem_chunk k v hkw hvw), List.filterMap_cons,
        parsePair_clean k v hkw hvw hv1]
      rfl
    | cons q qs =>
      have hue : urlencode ((k, v) :: q :: qs) =
          (k ++ '=' :: v) ++ '&' :: urlencode (q :: qs) := by
        unfold urlencode
        simp only [List.map_cons, pyJoin, hqk, hqv]
      rw [hue]
      unfold parse_qsl
      have hne : ((k ++ '=' :: v) ++ '&' :: urlencode (q :: qs)).isEmpty = false := by
        cases k <;> rfl
      rw [hne]
      simp only [Bool.false_eq_true, if_false]
      rw [pySplit_append '&' _ _ (amp_not_mem_chunk k v hkw hvw), List.filterMap_cons,
        parsePair_clean k v hkw hvw hv1]
      have htail : (pySplit '&' (urlencode (q :: qs))).filterMap parsePair =
          parse_qsl (urlencode (q :: qs)) := by
        unfold parse_qsl
        have : (urlencode (q :: qs)).isEmpty = false := by
          cases hu : urlencode (q :: qs) with
          | nil => exact absurd hu (urlencode_cons_ne_nil q qs)
          | cons _ _ => rfl
        rw [this]
        simp
      rw [htail, ih (fun x hx => hw x (List.mem_cons_of_mem _ hx))]

lemma pyDictOf_acc_nodup {α β : Type} [DecidableEq α] :
    ∀ (m acc : List (α × β)), (∀ p ∈ m, hasKeyA acc p.1 = false) →
      (m.map Prod.fst).Nodup → List.foldl updateA acc m = acc ++ m := by
  intro m
  induction m with
  | nil => intro acc _ _; simp
  | cons p ps ih =>
    intro acc hkeys hnod
    have hp : hasKeyA acc p.1 = false := hkeys p (List.mem_cons_self _ _)
    have hstep : updateA acc p = acc ++ [p] := by
      unfold updateA
      rw [hp]
      simp
    simp only [List.foldl_cons, hstep]
    have hnod' : (ps.map Prod.fst).Nodup := by
      simpa using hnod.of_cons
    have hkeys' : ∀ q ∈ ps, hasKeyA (acc ++ [p]) q.1 = false := by
      intro q hq
      have h1 : hasKeyA acc q.1 = false := hkeys q (List.mem_cons_of_mem _ hq)
      have h2 : q.1 ≠ p.1 := by
        intro hh
        have : p.1 ∈ ps.map Prod.fst := by
          rw [← hh]
          exact List.mem_map_of_mem Prod.fst hq
        rw [List.map_cons] at hnod
        exact (List.nodup_cons.mp hnod).1 this
      rw [hasKeyA, lookupA_append]
      rw [hasKeyA] at h1
      cases hl : lookupA acc q.1 with
      | some w => rw [hl] at h1; simp at h1
      | none =>
        have h3 : ¬(p.1 = q.1) := fun hh => h2 hh.symm
        simp [lookupA, h3]
    rw [ih (acc ++ [p]) hkeys' hnod', List.append_assoc]
    rfl

lemma pyDictOf_nodup {α β : Type} [DecidableEq α] (m : List (α × β))
    (h : (m.map Prod.fst).Nodup) : pyDictOf m = m := by
  unfold pyDictOf
  rw [pyDictOf_acc_nodup m [] (fun p _ => rfl) h]
  rfl

/-- C5: for every annotation map whose keys and values are nonempty words
over `[A-Za-z0-9_]` (with the keys distinct, as in a Python dict),
decoding (`dict(parse_qsl(...))`, as in `get_table_comment` /
`get_column_comment`) the URL-query-string encoding (`urlencode`, as in
`set_table_comment` / `set_column_comment`) returns the original map. -/
theorem comment_roundtrip (m : List (List Char × List Char))
    (hw : ∀ p ∈ m, p.1 ≠ [] ∧ p.2 ≠ [] ∧
      (∀ c ∈ p.1, wordChar c = true) ∧ (∀ c ∈ p.2, wordChar c = true))
    (hn : (m.map Prod.fst).Nodup) :
    decodeComment (encodeComment m) = m := by
  unfold decodeComment encodeComment
  rw [parse_urlencode m hw, pyDictOf_nodup m hn]

/-- Witness for C5 at the map `{publish: true, a_1: B2}`. -/
theorem comment_roundtrip_witness :
    decodeComment (encodeComment [("publish".data, "true".data), ("a_1".data, "B2".data)]) =
      [("publish".data, "true".data), ("a_1".data, "B2".data)] :=
  comment_roundtrip _ (by decide) (by decide)

end CommentRoundTrip

section DsnRoundTrip

/-- A character from `[a-z0-9_]` (lower-case ASCII letters, digits,
underscore): the restricted alphabet of the amended DSN round-trip
statement. -/
def dsnChar (c : Char) : Bool :=
  (97 ≤ c.toNat && c.toNat ≤ 122) || isDig c || c = '_'

lemma dsnChar_wordChar {c : Char} (h : dsnChar c = true) : wordChar c = true := by
  simp only [dsnChar, Bool.or_eq_true] at h
  unfold wordChar
  rcases h with (h1 | h2) | h3
  · simp [h1]
  · simp [h2]
  · simp [h3]

lemma dsnChar_not_sep {c : Char} (h : dsnChar c = true) :
    c ≠ ':' ∧ c ≠ '@' ∧ c ≠ '/' ∧ c ≠ '?' ∧ c ≠ '#' ∧ c ≠ '&' ∧ c ≠ '=' ∧ c ≠ '%' := by
  refine ⟨?_, ?_, ?_, ?_, ?_, ?_, ?_, ?_⟩ <;> rintro rfl <;> revert h <;> decide

lemma isDig_not_sep {c : Char} (h : isDig c = true) :
    c ≠ ':' ∧ c ≠ '@' ∧ c ≠ '/' ∧ c ≠ '?' ∧ c ≠ '#' ∧ c ≠ '&' ∧ c ≠ '=' ∧ c ≠ '%' := by
  refine ⟨?_, ?_, ?_, ?_, ?_, ?_, ?_, ?_⟩ <;> rintro rfl <;> revert h <;> decide

lemma dsnChar_lowerChar {c : Char} (h : dsnChar c = true) : lowerChar c = c := by
  simp only [dsnChar, Bool.or_eq_true, Bool.and_eq_true, decide_eq_true_eq] at h
  unfold lowerChar
  rw [if_neg]
  rintro ⟨h1, h2⟩
  rcases h with (h3 | h4) | h5
  · omega
  · unfold isDig at h4
    simp only [Bool.and_eq_true, decide_eq_true_eq] at h4
    omega
  · subst h5
    revert h2
    decide

lemma dsnChar_nlChar {c : Char} (h : dsnChar c = true) : nlChar c = true := by
  have hs := dsnChar_not_sep h
  unfold nlChar
  simp [hs.2.2.1, hs.2.2.2.1, hs.2.2.2.2.1]

lemma isDig_nlChar {c : Char} (h : isDig c = true) : nlChar c = true := by
  have hs := isDig_not_sep h
  unfold nlChar
  simp [hs.2.2.1, hs.2.2.2.1, hs.2.2.2.2.1]

lemma map_lowerChar_id (s : List Char) (h : ∀ c ∈ s, dsnChar c = true) :
    s.map lowerChar = s := by
  induction s with
  | nil => rfl
  | cons c rest ih =>
    simp only [List.map_cons, dsnChar_lowerChar (h c (List.mem_cons_self _ _)),
      ih (fun x hx => h x (List.mem_cons_of_mem _ hx))]

lemma digChar_isDig (k : Nat) : isDig (digChar k) = true := by
  unfold digChar
  split_ifs <;> decide

lemma digChar_val {k : Nat} (h : k < 10) : (digChar k).toNat - 48 = k := by
  unfold digChar
  split_ifs with h0 h1 h2 h3 h4 h5 h6 h7 h8
  · subst h0; decide
  · subst h1; decide
  · subst h2; decide
  · subst h3; decide
  · subst h4; decide
  · subst h5; decide
  · subst h6; decide
  · subst h7; decide
  · subst h8; decide
  · have h9 : k = 9 := by omega
    subst h9
    decide

lemma chars2nat_foldl (ys : List Char) : ∀ a : Nat,
    List.foldl (fun x c => 10 * x + (c.toNat - 48)) a ys =
      a * 10 ^ ys.length + List.foldl (fun x c => 10 * x + (c.toNat - 48)) 0 ys := by
  induction ys with
  | nil => intro a; simp
  | cons c rest ih =>
    intro a
    simp only [List.foldl_cons, List.length_cons]
    rw [ih (10 * a + (c.toNat - 48)), ih (10 * 0 + (c.toNat - 48))]
    ring

lemma chars2nat_cons (c : Char) (rest : List Char) :
    chars2nat (c :: rest) = (c.toNat - 48) * 10 ^ rest.length + chars2nat rest := by
  unfold chars2nat
  rw [List.foldl_cons, chars2nat_foldl rest (10 * 0 + (c.toNat - 48))]
  ring

lemma natDecAux_correct : ∀ (fuel n : Nat) (acc : List Char), n < 10 ^ fuel →
    chars2nat (natDecAux fuel n acc) = n * 10 ^ acc.length + chars2nat acc := by
  intro fuel
  induction fuel with
  | zero =>
    intro n acc h
    simp only [pow_zero, Nat.lt_one_iff] at h
    subst h
    simp [natDecAux]
  | succ fuel ih =>
    intro n acc h
    by_cases h10 : n < 10
    · simp only [natDecAux, if_pos h10]
      rw [chars2nat_cons, digChar_val h10]
    · simp only [natDecAux, if_neg h10]
      have hdiv : n / 10 < 10 ^ fuel := by
        rw [Nat.div_lt_iff_lt_mul (by norm_num)]
        calc n < 10 ^ (fuel + 1) := h
        _ = 10 ^ fuel * 10 := by ring
      rw [ih (n / 10) (digChar (n % 10) :: acc) hdiv, chars2nat_cons,
        digChar_val (Nat.mod_lt n (by norm_num))]
      have h3 : n = 10 * (n / 10) + n % 10 := (Nat.div_add_mod n 10).symm
      simp only [List.length_cons]
      calc n / 10 * 10 ^ (acc.length + 1) + (n % 10 * 10 ^ acc.length + chars2nat acc)
          = (10 * (n / 10) + n % 10) * 10 ^ acc.length + chars2nat acc := by ring
        _ = n * 10 ^ acc.length + chars2nat acc := by rw [← h3]

lemma chars2nat_natDec (n : Nat) : chars2nat (natDec n) = n := by
  unfold natDec
  have hn : n < 10 ^ n := Nat.lt_pow_self (show 1 < 10 by norm_num) n
  have hb : n < 10 ^ (n + 1) :=
    lt_of_lt_of_le hn (Nat.pow_le_pow_right (by norm_num) (Nat.le_succ n))
  rw [natDecAux_correct (n + 1) n [] hb]
  simp [chars2nat]

lemma natDecAux_digits : ∀ (fuel n : Nat) (acc : List Char),
    (∀ c ∈ acc, isDig c = true) → ∀ c ∈ natDecAux fuel n acc, isDig c = true := by
  intro fuel
  induction fuel with
  | zero => intro n acc hacc; exact hacc
  | succ fuel ih =>
    intro n acc hacc c hc
    by_cases h10 : n < 10
    · simp only [natDecAux, if_pos h10] at hc
      rcases List.mem_cons.mp hc with h1 | h2
      · rw [h1]; exact digChar_isDig n
      · exact hacc c h2
    · simp only [natDecAux, if_neg h10] at hc
      refine ih (n / 10) (digChar (n % 10) :: acc) ?_ c hc
      intro x hx
      rcases List.mem_cons.mp hx with h1 | h2
      · rw [h1]; exact digChar_isDig (n % 10)
      · exact hacc x h2

lemma natDec_digits (n : Nat) : ∀ c ∈ natDec n, isDig c = true :=
  natDecAux_digits (n + 1) n [] (by simp)

lemma natDecAux_ne_nil : ∀ (fuel n : Nat) (acc : List Char),
    acc ≠ [] → natDecAux fuel n acc ≠ [] := by
  intro fuel
  induction fuel with
  | zero => intro n acc h; exact h
  | succ fuel ih =>
    intro n acc h
    by_cases h10 : n < 10
    · simp [natDecAux, if_pos h10]
    · simp only [natDecAux, if_neg h10]
      exact ih (n / 10) _ (by simp)

lemma natDec_ne_nil (n : Nat) : natDec n ≠ [] := by
  unfold natDec
  by_cases h10 : n < 10
  · simp [natDecAux, if_pos h10]
  · simp only [natDecAux, if_neg h10]
    exact natDecAux_ne_nil n (n / 10) _ (by simp)

lemma leadsWith_append_sep {pat : List Char} (c : Char) (hc : c ∉ pat) :
    ∀ (x y : List Char), leadsWith pat (x ++ c :: y) = leadsWith pat x := by
  induction pat with
  | nil => intro x y; rfl
  | cons p pt ih =>
    intro x y
    cases x with
    | nil =>
      have hp : (p == c) = false := by
        simp only [beq_eq_false_iff_ne, ne_eq]
        rintro rfl
        exact hc (List.mem_cons_self _ _)
      simp [leadsWith, hp]
    | cons a xr =>
      simp only [List.cons_append, leadsWith, List.append_eq]
      rw [ih (fun hm => hc (List.mem_cons_of_mem _ hm)) xr y]

lemma hasSub_append_sep {pat : List Char} (hne : pat ≠ []) (c : Char) (hc : c ∉ pat)
    (x y : List Char) : hasSub pat (x ++ c :: y) = (hasSub pat x || hasSub pat y) := by
  induction x with
  | nil =>
    obtain ⟨p, pt, rfl⟩ : ∃ p pt, pat = p :: pt := by
      cases pat with
      | nil => exact absurd rfl hne
      | cons p pt => exact ⟨p, pt, rfl⟩
    have hp : (p == c) = false := by
      simp only [beq_eq_false_iff_ne, ne_eq]
      rintro rfl
      exact hc (List.mem_cons_self _ _)
    simp [hasSub, leadsWith, hp]
  | cons a xr ih =>
    simp only [List.cons_append, hasSub, List.append_eq]
    rw [show a :: (xr ++ c :: y) = (a :: xr) ++ c :: y from rfl,
      leadsWith_append_sep c hc (a :: xr) y, ih]
    simp [Bool.or_assoc]

lemma hasSub_head_not_mem {p : Char} {pt : List Char} (s : List Char) (h : p ∉ s) :
    hasSub (p :: pt) s = false := by
  induction s with
  | nil => rfl
  | cons c rest ih =>
    have hp : (p == c) = false := by
      simp only [beq_eq_false_iff_ne, ne_eq]
      rintro rfl
      exact h (List.mem_cons_self _ _)
    simp only [hasSub, leadsWith, hp, Bool.false_and, Bool.false_or]
    exact ih (fun hm => h (List.mem_cons_of_mem _ hm))

lemma urlencode_no_sslmode (opts : List (List Char × List Char))
    (hw : ∀ p ∈ opts, (∀ c ∈ p.1, wordChar c = true) ∧ (∀ c ∈ p.2, wordChar c = true))
    (hss : ∀ p ∈ opts, hasSub "sslmode".data p.1 = false ∧ hasSub "sslmode".data p.2 = false) :
    hasSub "sslmode".data (urlencode opts) = false := by
  induction opts with
  | nil => rfl
  | cons p ps ih =>
    obtain ⟨k, v⟩ := p
    obtain ⟨hkw, hvw⟩ := hw (k, v) (List.mem_cons_self _ _)
    obtain ⟨hks, hvs⟩ := hss (k, v) (List.mem_cons_self _ _)
    have hqk := quote_plus_id k hkw
    have hqv := quote_plus_id v hvw
    have hne : "sslmode".data ≠ [] := by decide
    have heqm : '=' ∉ "sslmode".data := by decide
    have hampm : '&' ∉ "sslmode".data := by decide
    cases ps with
    | nil =>
      unfold urlencode
      simp only [List.map_cons, List.map_nil, pyJoin, hqk, hqv]
      rw [hasSub_append_sep hne '=' heqm k v, hks, hvs]
      rfl
    | cons q qs =>
      have hue : urlencode ((k, v) :: q :: qs) =
          (k ++ '=' :: v) ++ '&' :: urlencode (q :: qs) := by
        unfold urlencode
        simp only [List.map_cons, pyJoin, hqk, hqv]
      rw [hue, hasSub_append_sep hne '&' hampm (k ++ '=' :: v) (urlencode (q :: qs)),
        hasSub_append_sep hne '=' heqm k v, hks, hvs,
        ih (fun x hx => hw x (List.mem_cons_of_mem _ hx))
           (fun x hx => hss x (List.mem_cons_of_mem _ hx))]
      rfl

lemma urlencode_mem_chars (opts : List (List Char × List Char))
    (hw : ∀ p ∈ opts, (∀ c ∈ p.1, wordChar c = true) ∧ (∀ c ∈ p.2, wordChar c = true)) :
    ∀ c ∈ urlencode opts, wordChar c = true ∨ c = '=' ∨ c = '&' := by
  induction opts with
  | nil => intro c hc; simp [urlencode, pyJoin] at hc
  | cons p ps ih =>
    obtain ⟨k, v⟩ := p
    obtain ⟨hkw, hvw⟩ := hw (k, v) (List.mem_cons_self _ _)
    have hqk := quote_plus_id k hkw
    have hqv := quote_plus_id v hvw
    intro c hc
    cases ps with
    | nil =>
      unfold urlencode at hc
      simp only [List.map_cons, List.map_nil, pyJoin, hqk, hqv] at hc
      rcases List.mem_append.mp hc with h1 | h2
      · exact Or.inl (hkw c h1)
      · rcases List.mem_cons.mp h2 with h3 | h4
        · exact Or.inr (Or.inl h3)
        · exact Or.inl (hvw c h4)
    | cons q qs =>
      have hue : urlencode ((k, v) :: q :: qs) =
          (k ++ '=' :: v) ++ '&' :: urlencode (q :: qs) := by
        unfold urlencode
        simp only [List.map_cons, pyJoin, hqk, hqv]
      rw [hue] at hc
      rcases List.mem_append.mp hc with h1 | h2
      · rcases List.mem_append.mp h1 with h3 | h4
        · exact Or.inl (hkw c h3)
        · rcases List.mem_cons.mp h4 with h5 | h6
          · exact Or.inr (Or.inl h5)
          · exact Or.inl (hvw c h6)
      · rcases List.mem_cons.mp h2 with h3 | h4
        · exact Or.inr (Or.inr h3)
        · exact ih (fun x hx => hw x (List.mem_cons_of_mem _ hx)) c h4

lemma takeWhile_append_stop {p : Char → Bool} (w : List Char)
    (hw : ∀ c ∈ w, p c = true) (d : Char) (hd : p d = false) (r : List Char) :
    (w ++ d :: r).takeWhile p = w := by
  induction w with
  | nil => simp [List.takeWhile, hd]
  | cons c wr ih =>
    simp only [List.cons_append, List.takeWhile_cons, hw c (List.mem_cons_self _ _)]
    rw [ih (fun x hx => hw x (List.mem_cons_of_mem _ hx))]
    simp

lemma dropWhile_append_stop {p : Char → Bool} (w : List Char)
    (hw : ∀ c ∈ w, p c = true) (d : Char) (hd : p d = false) (r : List Char) :
    (w ++ d :: r).dropWhile p = d :: r := by
  induction w with
  | nil => simp [List.dropWhile, hd]
  | cons c wr ih =>
    simp only [List.cons_append, List.dropWhile_cons, hw c (List.mem_cons_self _ _)]
    rw [ih (fun x hx => hw x (List.mem_cons_of_mem _ hx))]
    simp

lemma lookupA_none {α β : Type} [DecidableEq α] (m : List (α × β)) (K : α)
    (h : ∀ p ∈ m, p.1 ≠ K) : lookupA m K = none := by
  induction m with
  | nil => rfl
  | cons q rest ih =>
    simp only [lookupA, if_neg (h q (List.mem_cons_self _ _))]
    exact ih (fun p hp => h p (List.mem_cons_of_mem _ hp))

lemma hasKeyA_map_val {α β γ : Type} [DecidableEq α] (m : List (α × β)) (g : β → γ) (K : α) :
    hasKeyA (m.map (fun p => (p.1, g p.2))) K = hasKeyA m K := by
  induction m with
  | nil => rfl
  | cons q rest ih =>
    by_cases hq : q.1 = K
    · simp [hasKeyA, lookupA, hq]
    · simp only [List.map_cons, hasKeyA, lookupA, if_neg hq]
      exact ih

lemma contains_eq_false_of_not_mem {c : Char} {l : List Char} (h : c ∉ l) :
    l.contains c = false := by
  cases hcon : l.contains c with
  | false => rfl
  | true => exact absurd (List.mem_of_elem_eq_true hcon) h

lemma wordChar_not_sep {c : Char} (h : wordChar c = true) :
    c ≠ ':' ∧ c ≠ '@' ∧ c ≠ '/' ∧ c ≠ '?' ∧ c ≠ '#' := by
  refine ⟨?_, ?_, ?_, ?_, ?_⟩ <;> rintro rfl <;> revert h <;> decide

lemma breakAt_no (c : Char) (s : List Char) (h : c ∉ s) : breakAt c s = (s, []) := by
  unfold breakAt
  rw [splitFirstBy_of_no c s h]

lemma breakAt_app (c : Char) (k v : List Char) (h : c ∉ k) :
    breakAt c (k ++ c :: v) = (k, v) := by
  unfold breakAt
  rw [splitFirstBy_append c k v h]

lemma breakAt_cons (c a : Char) (s : List Char) (h : ¬(a = c)) :
    breakAt c (a :: s) = (a :: (breakAt c s).1, (breakAt c s).2) := by
  unfold breakAt
  simp only [splitFirstBy, if_neg h]
  cases hs : splitFirstBy c s with
  | none => rfl
  | some p => rfl

lemma urlsplitM_shape (sch netloc pq : List Char)
    (hsch : ':' ∉ sch)
    (hnl : ∀ c ∈ netloc, nlChar c = true)
    (hfr : '#' ∉ pq) :
    urlsplitM (sch ++ ':' :: '/' :: '/' :: (netloc ++ '/' :: pq)) =
      ⟨netloc, '/' :: (breakAt '?' pq).1, (breakAt '?' pq).2⟩ := by
  have hfr' : '#' ∉ '/' :: pq := by
    intro hm
    rcases List.mem_cons.mp hm with h1 | h2
    · exact absurd h1 (by decide)
    · exact hfr h2
  simp only [urlsplitM, splitFirstBy_append ':' sch _ hsch]
  simp only [List.take_succ_cons, List.take_zero, List.drop_succ_cons, List.drop_zero,
    if_true]
  rw [takeWhile_append_stop netloc hnl '/' (by decide) pq,
    dropWhile_append_stop netloc hnl '/' (by decide) pq,
    breakAt_no '#' _ hfr', breakAt_cons '?' '/' pq (by decide)]

lemma rpartAt_netloc (U P H pd : List Char)
    (hH : '@' ∉ H) (hpd : '@' ∉ pd) :
    rpartAt '@' (U ++ ':' :: (P ++ '@' :: (H ++ ':' :: pd))) =
      some (U ++ ':' :: P, H ++ ':' :: pd) := by
  have hassoc : U ++ ':' :: (P ++ '@' :: (H ++ ':' :: pd)) =
      (U ++ ':' :: P) ++ '@' :: (H ++ ':' :: pd) := by
    simp [List.append_assoc]
  have hrev : ((U ++ ':' :: P) ++ '@' :: (H ++ ':' :: pd)).reverse =
      (H ++ ':' :: pd).reverse ++ '@' :: (U ++ ':' :: P).reverse := by
    rw [List.reverse_append, List.reverse_cons]
    simp [List.append_assoc]
  have hnotmem : '@' ∉ (H ++ ':' :: pd).reverse := by
    intro hm
    rw [List.mem_reverse] at hm
    rcases List.mem_append.mp hm with h1 | h2
    · exact hH h1
    · rcases List.mem_cons.mp h2 with h3 | h4
      · exact absurd h3 (by decide)
      · exact hpd h4
  unfold rpartAt
  rw [hassoc, hrev, splitFirstBy_append '@' _ _ hnotmem]
  simp

/-- A descriptor outside the round-trip's safe domain: its host contains
an upper-case letter. -/
def dBad : ConnDesc := ⟨"u".data, "p".data, ['H'], 1, "d".data, []⟩

/-- The value stored under key `k` when `cs2d` parses `u` without raising
(`none` when the parse raised or the key is absent). -/
def cs2dAt (u : List Char) (k : List Char) : Option CfgVal :=
  match cs2d u with
  | .ok l => lookupA l k
  | .error _ => none

/-- C6 counterexample: for the valid descriptor `dBad` (host `H`),
converting to a DSN with `cd2s` and back with `cs2d` does not preserve
the host field: urllib's `hostname` is lower-cased, so the parsed config
holds host `h` while the descriptor held `H`. (A user or password with a
space is likewise mangled: `quote_plus` writes `+` but `cs2d` decodes
with `unquote`, which leaves `+` alone.) -/
theorem dsn_roundtrip_counterexample :
    cs2dAt (cd2s dBad) "host".data = some (.s ['h']) ∧
    dBad.host = ['H'] ∧ (['h'] : List Char) ≠ ['H'] :=
  ⟨rfl, rfl, by decide⟩

/-- C6 (amended): the DSN round trip `cs2d (cd2s d)` reproduces every
field of the descriptor when the fields stay inside urllib's safe
alphabet and port range: user, password, host and database nonempty over
`[a-z0-9_]`, the port between 1 and 65535, option keys and values
nonempty over `[a-z0-9_]` with distinct keys, no option key or value
containing `sslmode`, and no option key named `ssl` or shadowing one of
the five fixed config keys. Outside that domain the round trip loses
information or raises (see the counterexample: upper-case hosts are
lower-cased; spaces in user/password come back as `+`; port `0` is falsy
and comes back as the empty string through `port or ''`; a port above
65535 makes urllib's `port` property raise `ValueError`). -/
theorem dsn_roundtrip_restricted (d : ConnDesc)
    (hu : d.user ≠ [] ∧ ∀ c ∈ d.user, dsnChar c = true)
    (hpw : d.password ≠ [] ∧ ∀ c ∈ d.password, dsnChar c = true)
    (hh : d.host ≠ [] ∧ ∀ c ∈ d.host, dsnChar c = true)
    (hdb : d.database ≠ [] ∧ ∀ c ∈ d.database, dsnChar c = true)
    (hport : 0 < d.port ∧ d.port ≤ 65535)
    (hop : ∀ p ∈ d.options, p.1 ≠ [] ∧ p.2 ≠ [] ∧
      (∀ c ∈ p.1, dsnChar c = true) ∧ (∀ c ∈ p.2, dsnChar c = true))
    (hnod : (d.options.map Prod.fst).Nodup)
    (hss : ∀ p ∈ d.options, hasSub "sslmode".data p.1 = false ∧
      hasSub "sslmode".data p.2 = false)
    (hkeys : ∀ p ∈ d.options, p.1 ≠ "ssl".data ∧ p.1 ≠ "database".data ∧
      p.1 ≠ "user".data ∧ p.1 ≠ "password".data ∧ p.1 ≠ "host".data ∧ p.1 ≠ "port".data) :
    cs2d (cd2s d) = .ok
      (d.options.map (fun p => (p.1, CfgVal.s p.2)) ++
        [("database".data, CfgVal.s d.database), ("user".data, CfgVal.s d.user),
         ("password".data, CfgVal.s d.password), ("host".data, CfgVal.s d.host),
         ("port".data, CfgVal.n d.port)]) := by
  obtain ⟨hp0, hp65⟩ := hport
  obtain ⟨hu1, hu2⟩ := hu
  obtain ⟨hp1, hp2⟩ := hpw
  obtain ⟨hh1, hh2⟩ := hh
  obtain ⟨hdb1, hdb2⟩ := hdb
  have hqu : quote_plus d.user = d.user :=
    quote_plus_id _ (fun c hc => dsnChar_wordChar (hu2 c hc))
  have hqp : quote_plus d.password = d.password :=
    quote_plus_id _ (fun c hc => dsnChar_wordChar (hp2 c hc))
  have hqh : quote_plus d.host = d.host :=
    quote_plus_id _ (fun c hc => dsnChar_wordChar (hh2 c hc))
  have hsslf : sslFixup d.options = d.options := by
    unfold sslFixup
    rw [lookupA_none d.options _ (fun p hp => (hkeys p hp).1)]
  have hE : cd2s d = "postgres".data ++ ':' :: '/' :: '/' ::
      ((d.user ++ ':' :: (d.password ++ '@' :: (d.host ++ ':' :: natDec d.port))) ++
        '/' :: (d.database ++ '?' :: urlencode d.options)) := by
    unfold cd2s
    rw [hsslf, hqu, hqp, hqh]
    simp [List.append_assoc]
  have hNL : ∀ c ∈ d.user ++ ':' :: (d.password ++ '@' :: (d.host ++ ':' :: natDec d.port)),
      nlChar c = true := by
    intro c hc
    rcases List.mem_append.mp hc with h1 | h2
    · exact dsnChar_nlChar (hu2 c h1)
    · rcases List.mem_cons.mp h2 with h3 | h4
      · rw [h3]; decide
      · rcases List.mem_append.mp h4 with h5 | h6
        · exact dsnChar_nlChar (hp2 c h5)
        · rcases List.mem_cons.mp h6 with h7 | h8
          · rw [h7]; decide
          · rcases List.mem_append.mp h8 with h9 | h10
            · exact dsnChar_nlChar (hh2 c h9)
            · rcases List.mem_cons.mp h10 with h11 | h12
              · rw [h11]; decide
              · exact isDig_nlChar (natDec_digits d.port c h12)
  have hqchars : ∀ p ∈ d.options, (∀ c ∈ p.1, wordChar c = true) ∧
      (∀ c ∈ p.2, wordChar c = true) :=
    fun p hp => ⟨fun c hc => dsnChar_wordChar ((hop p hp).2.2.1 c hc),
      fun c hc => dsnChar_wordChar ((hop p hp).2.2.2 c hc)⟩
  have hfr : '#' ∉ d.database ++ '?' :: urlencode d.options := by
    intro hm
    rcases List.mem_append.mp hm with h1 | h2
    · exact (dsnChar_not_sep (hdb2 '#' h1)).2.2.2.2.1 rfl
    · rcases List.mem_cons.mp h2 with h3 | h4
      · exact absurd h3 (by decide)
      · rcases urlencode_mem_chars d.options hqchars '#' h4 with h5 | h6 | h7
        · exact (wordChar_not_sep h5).2.2.2.2 rfl
        · exact absurd h6 (by decide)
        · exact absurd h7 (by decide)
  have hsplit : urlsplitM (cd2s d) =
      ⟨d.user ++ ':' :: (d.password ++ '@' :: (d.host ++ ':' :: natDec d.port)),
        '/' :: d.database, urlencode d.options⟩ := by
    rw [hE, urlsplitM_shape "postgres".data _ _ (by decide) hNL hfr,
      breakAt_app '?' _ _ (fun hm => (dsnChar_not_sep (hdb2 '?' hm)).2.2.2.1 rfl)]
  have hcolU : ':' ∉ d.user := fun hm => (dsnChar_not_sep (hu2 ':' hm)).1 rfl
  have hcolH : ':' ∉ d.host := fun hm => (dsnChar_not_sep (hh2 ':' hm)).1 rfl
  have hrp : rpartAt '@'
      (d.user ++ ':' :: (d.password ++ '@' :: (d.host ++ ':' :: natDec d.port))) =
      some (d.user ++ ':' :: d.password, d.host ++ ':' :: natDec d.port) :=
    rpartAt_netloc d.user d.password d.host (natDec d.port)
      (fun hm => (dsnChar_not_sep (hh2 '@' hm)).2.1 rfl)
      (fun hm => (isDig_not_sep (natDec_digits d.port '@' hm)).2.1 rfl)
  have husr : urlUsername
      (d.user ++ ':' :: (d.password ++ '@' :: (d.host ++ ':' :: natDec d.port))) =
      some d.user := by
    simp only [urlUsername, hrp]
    rw [breakAt_app ':' _ _ hcolU]
  have hpwd : urlPassword
      (d.user ++ ':' :: (d.password ++ '@' :: (d.host ++ ':' :: natDec d.port))) =
      some d.password := by
    simp only [urlPassword, hrp]
    rw [splitFirstBy_append ':' _ _ hcolU]
    rfl
  have hhost : urlHostname
      (d.user ++ ':' :: (d.password ++ '@' :: (d.host ++ ':' :: natDec d.port))) =
      d.host := by
    simp only [urlHostname, hrp]
    rw [breakAt_app ':' _ _ hcolH]
    exact map_lowerChar_id d.host hh2
  have hprt : urlPortE
      (d.user ++ ':' :: (d.password ++ '@' :: (d.host ++ ':' :: natDec d.port))) =
      .ok (some d.port) := by
    simp only [urlPortE, hrp]
    rw [splitFirstBy_append ':' _ _ hcolH]
    show (if natDec d.port = [] then (Except.ok none : Except PyErr (Option Nat))
      else if (natDec d.port).all isDig then
        if chars2nat (natDec d.port) ≤ 65535 then .ok (some (chars2nat (natDec d.port)))
        else .error (.valueError "Port out of range 0-65535")
      else .error (.valueError "Port could not be cast to integer value")) = .ok (some d.port)
    rw [if_neg (natDec_ne_nil d.port), if_pos (List.all_eq_true.mpr (natDec_digits d.port)),
      chars2nat_natDec, if_pos hp65]
  have hcont : d.database.contains '?' = false :=
    contains_eq_false_of_not_mem (fun hm => (dsnChar_not_sep (hdb2 '?' hm)).2.2.2.1 rfl)
  have hpu : '%' ∉ d.user := fun hm => (dsnChar_not_sep (hu2 '%' hm)).2.2.2.2.2.2.2 rfl
  have hpp : '%' ∉ d.password := fun hm => (dsnChar_not_sep (hp2 '%' hm)).2.2.2.2.2.2.2 rfl
  have hpd : '%' ∉ d.database := fun hm => (dsnChar_not_sep (hdb2 '%' hm)).2.2.2.2.2.2.2 rfl
  have hph : '%' ∉ d.host := fun hm => (dsnChar_not_sep (hh2 '%' hm)).2.2.2.2.2.2.2 rfl
  simp only [cs2d, hsplit, List.drop_succ_cons, List.drop_zero, hcont, Bool.false_and,
    Bool.false_eq_true, if_false, husr, hpwd, hhost, hprt, Option.getD_some]
  have hne0 : ¬d.port = 0 := by omega
  rw [if_neg hne0]
  rw [map_lowerChar_id d.host hh2, hasSub_head_not_mem d.host hph]
  simp only [Bool.false_eq_true, if_false]
  rw [unquote_of_no_percent d.database hpd, unquote_of_no_percent d.user hpu,
    unquote_of_no_percent d.password hpp]
  have hkfun : ∀ K : List Char, (∀ q ∈ d.options, q.1 ≠ K) →
      hasKeyA (d.options.map (fun p => (p.1, CfgVal.s p.2))) K = false := by
    intro K hK
    rw [hasKeyA_map_val]
    unfold hasKeyA
    rw [lookupA_none d.options K hK]
    rfl
  have hfixedkeys : ∀ p ∈ ([("database".data, CfgVal.s d.database),
      ("user".data, CfgVal.s d.user), ("password".data, CfgVal.s d.password),
      ("host".data, CfgVal.s d.host), ("port".data, CfgVal.n d.port)] :
        List (List Char × CfgVal)),
      hasKeyA (d.options.map (fun p => (p.1, CfgVal.s p.2))) p.1 = false := by
    intro p hp
    simp only [List.mem_cons, List.not_mem_nil, or_false] at hp
    rcases hp with rfl | rfl | rfl | rfl | rfl
    · exact hkfun _ (fun q hq => (hkeys q hq).2.1)
    · exact hkfun _ (fun q hq => (hkeys q hq).2.2.1)
    · exact hkfun _ (fun q hq => (hkeys q hq).2.2.2.1)
    · exact hkfun _ (fun q hq => (hkeys q hq).2.2.2.2.1)
    · exact hkfun _ (fun q hq => (hkeys q hq).2.2.2.2.2)
  have hfixnod : (([("database".data, CfgVal.s d.database),
      ("user".data, CfgVal.s d.user), ("password".data, CfgVal.s d.password),
      ("host".data, CfgVal.s d.host), ("port".data, CfgVal.n d.port)] :
        List (List Char × CfgVal)).map Prod.fst).Nodup := by
    simp only [List.map_cons, List.map_nil]
    decide
  by_cases hnil : d.options = []
  · rw [hnil]
    simp only [urlencode, List.map_nil, pyJoin, List.isEmpty_nil, Bool.not_true,
      Bool.false_eq_true, if_false, List.nil_append]
    rw [pyDictOf_acc_nodup _ [] (fun p _ => rfl) hfixnod]
    rfl
  · have hne : urlencode d.options ≠ [] := by
      cases ho : d.options with
      | nil => exact absurd ho hnil
      | cons o os => exact urlencode_cons_ne_nil o os
    have hemp : (urlencode d.options).isEmpty = false := by
      cases hq : urlencode d.options with
      | nil => exact absurd hq hne
      | cons _ _ => rfl
    have hnoss : hasSub "sslmode".data (urlencode d.options) = false :=
      urlencode_no_sslmode d.options hqchars hss
    simp only [hemp, Bool.not_false, if_true, hnoss, Bool.false_eq_true, if_false]
    rw [parse_urlencode d.options (fun p hp =>
      ⟨(hop p hp).1, (hop p hp).2.1, (hqchars p hp).1, (hqchars p hp).2⟩)]
    have hcomp : (Prod.fst ∘ fun p : List Char × List Char => (p.1, CfgVal.s p.2)) =
        Prod.fst := funext fun p => rfl
    have hnod2 : ((d.options.map (fun p => (p.1, CfgVal.s p.2))).map Prod.fst).Nodup := by
      rw [List.map_map, hcomp]
      exact hnod
    rw [pyDictOf_nodup _ hnod2]
    rw [pyDictOf_acc_nodup _ (d.options.map (fun p => (p.1, CfgVal.s p.2)))
      hfixedkeys hfixnod]

/-- Witness for C6 (amended) at a concrete safe descriptor with one
option. -/
theorem dsn_roundtrip_restricted_witness :
    cs2d (cd2s ⟨"u".data, "pw".data, "h".data, 5432, "db".data, [("a".data, "b".data)]⟩) =
      .ok [("a".data, CfgVal.s "b".data),
       ("database".data, CfgVal.s "db".data), ("user".data, CfgVal.s "u".data),
       ("password".data, CfgVal.s "pw".data), ("host".data, CfgVal.s "h".data),
       ("port".data, CfgVal.n 5432)] :=
  dsn_roundtrip_restricted _ (by decide) (by decide) (by decide) (by decide)
    (by decide) (by decide) (by decide) (by decide) (by decide)

end DsnRoundTrip
